import Mathlib

/-!
# Lightstage acquisition: synchronised multi-camera capture

A shallow embedding of `src/main.cpp`.  The program is a single sequential
procedure that talks to the camera SDK.  Every SDK call is an entry of a
chronological event log; what the SDK answers (a returned value or a raised
exception) comes from an environment `Env`, indexed by the number of calls
issued so far, so that every behaviour of the hardware can be expressed.
Console output is not part of the model.
-/

namespace Lightstage

/-! ## Data model -/

/-- Handle of an opened camera (`Arena::IDevice *`). -/
abbrev Dev := Nat

/-- Discovery record of a camera (`Arena::DeviceInfo`). -/
abbrev DeviceInfo := Nat

/-- Handle of an image buffer (`Arena::IImage *`). -/
abbrev Image := Nat

/-- The node maps the program addresses: `pDevice->GetNodeMap()`,
`pDevice->GetTLStreamNodeMap()` and `system->GetTLSystemNodeMap()` (the
broadcast channel). -/
inductive NodeMap where
  | GetNodeMap (d : Dev)
  | GetTLStreamNodeMap (d : Dev)
  | GetTLSystemNodeMap
  deriving DecidableEq

/-- Typed feature values: `GenICam::gcstring`, `int64_t`, `double`, `bool`. -/
inductive Value where
  | gcstring (s : String)
  | int64 (i : Int)
  | double (x : ℚ)
  | bool (b : Bool)
  deriving DecidableEq

/-- The three classes of exception that `main` distinguishes in its handlers. -/
inductive Exc where
  | GenericException
  | std_exception
  | unexpected
  deriving DecidableEq

/-- The calls the program issues, with their arguments. -/
inductive Call where
  | OpenSystem
  | UpdateDevices (timeout : Nat)
  | GetDevices
  | CreateDevice (info : DeviceInfo)
  | DestroyDevice (d : Dev)
  | StartStream (d : Dev)
  | StopStream (d : Dev)
  | ExecuteNode (m : NodeMap) (name : String)
  | GetNodeValue (m : NodeMap) (name : String)
  | SetNodeValue (m : NodeMap) (name : String) (v : Value)
  | GetImage (d : Dev) (timeout : Nat)
  | GetTimestamp (img : Image)
  | RequeueBuffer (d : Dev) (img : Image)
  | ImageFactory_Copy (img : Image)
  | ImageFactory_Destroy (img : Image)
  | ImageParams (img : Image)
  | ImageWriter (filename : String)
  | SetRaw (ext : String)
  | SetPng (ext : String)
  | write (img : Image)
  | GetPixelFormatName (format : String)
  | sleep_for (seconds : Nat)
  deriving DecidableEq

/-- What a call that did not raise gave back. -/
inductive Ret where
  | unit
  | value (v : Value)
  | infos (l : List DeviceInfo)
  | device (d : Dev)
  | image (img : Image)
  | timestamp (t : Nat)
  deriving DecidableEq

/-- How a call ended. -/
inductive Outcome where
  | raised (e : Exc)
  | returned (r : Ret)
  deriving DecidableEq

/-- One entry of the log: the call and how it ended. -/
structure Event where
  call : Call
  outcome : Outcome
  deriving DecidableEq

/-- The environment: for the `k`-th call of a run, whether it raises and, if
not, what it gives back. -/
structure Env where
  raises : Nat → Call → Option Exc
  gcstring : Nat → NodeMap → String → String
  int64 : Nat → NodeMap → String → Int
  double : Nat → NodeMap → String → ℚ
  bool : Nat → NodeMap → String → Bool
  infos : Nat → List DeviceInfo
  device : Nat → DeviceInfo → Dev
  image : Nat → Dev → Image
  copy : Nat → Image → Image
  timestamp : Nat → Image → Nat

/-- Result of running a piece of the program: it returned, it left by an
exception, it was still polling when the fuel ran out, or it reached a
conversion whose behaviour C++ leaves undefined.  Every case carries the
events issued, oldest first. -/
inductive Res (α : Type) where
  | ok (a : α) (evs : List Event)
  | throw (e : Exc) (evs : List Event)
  | outOfFuel (evs : List Event)
  | undefined (evs : List Event)
  deriving DecidableEq

/-- The events issued by a run. -/
def Res.events {α : Type} : Res α → List Event
  | .ok _ evs => evs
  | .throw _ evs => evs
  | .outOfFuel evs => evs
  | .undefined evs => evs

/-- Put earlier events in front of a result. -/
def Res.prepend {α : Type} (pre : List Event) : Res α → Res α
  | .ok a evs => .ok a (pre ++ evs)
  | .throw e evs => .throw e (pre ++ evs)
  | .outOfFuel evs => .outOfFuel (pre ++ evs)
  | .undefined evs => .undefined (pre ++ evs)

/-- A computation: given the environment and the number of calls issued
before it starts, its result. -/
def M (α : Type) : Type := Env → Nat → Res α

/-- Sequencing: an exception (or the end of the fuel) in the first part skips
the second part. -/
def M.bind {α β : Type} (m : M α) (f : α → M β) : M β := fun env n =>
  match m env n with
  | .ok a evs => (f a env (n + evs.length)).prepend evs
  | .throw e evs => .throw e evs
  | .outOfFuel evs => .outOfFuel evs
  | .undefined evs => .undefined evs

instance : Monad M where
  pure a := fun _ _ => .ok a []
  bind := M.bind

/-- The statement `throw e` (and an exception raised by the standard library). -/
def raise {α : Type} (e : Exc) : M α := fun _ _ => .throw e []

/-- The fuel of the polling loop ran out. -/
def outOfFuel {α : Type} : M α := fun _ _ => .outOfFuel []

/-- Behaviour undefined by the language. -/
def undefinedBehaviour {α : Type} : M α := fun _ _ => .undefined []

/-- Issue the call `c`; when it does not raise, it gives back `val`, logged
as `ret val`. -/
def invoke {α : Type} (c : Call) (val : Env → Nat → α) (ret : α → Ret) : M α :=
  fun env n =>
    match env.raises n c with
    | some e => .throw e [⟨c, .raised e⟩]
    | none => .ok (val env n) [⟨c, .returned (ret (val env n))⟩]

/-- Two's-complement range of `int64_t`. -/
def wrap64 (x : Int) : Int := (x + 2 ^ 63) % 2 ^ 64 - 2 ^ 63

/-! ## SDK primitives -/

def ExecuteNode (m : NodeMap) (name : String) : M Unit :=
  invoke (.ExecuteNode m name) (fun _ _ => ()) (fun _ => .unit)

def GetNodeValue_gcstring (m : NodeMap) (name : String) : M String :=
  invoke (.GetNodeValue m name) (fun env n => env.gcstring n m name)
    (fun s => .value (.gcstring s))

def GetNodeValue_int64 (m : NodeMap) (name : String) : M Int :=
  invoke (.GetNodeValue m name) (fun env n => wrap64 (env.int64 n m name))
    (fun i => .value (.int64 i))

def GetNodeValue_double (m : NodeMap) (name : String) : M ℚ :=
  invoke (.GetNodeValue m name) (fun env n => env.double n m name)
    (fun x => .value (.double x))

def GetNodeValue_bool (m : NodeMap) (name : String) : M Bool :=
  invoke (.GetNodeValue m name) (fun env n => env.bool n m name)
    (fun b => .value (.bool b))

def SetNodeValue (m : NodeMap) (name : String) (v : Value) : M Unit :=
  invoke (.SetNodeValue m name v) (fun _ _ => ()) (fun _ => .unit)

def StartStream (d : Dev) : M Unit :=
  invoke (.StartStream d) (fun _ _ => ()) (fun _ => .unit)

def StopStream (d : Dev) : M Unit :=
  invoke (.StopStream d) (fun _ _ => ()) (fun _ => .unit)

def GetImage (d : Dev) (timeout : Nat) : M Image :=
  invoke (.GetImage d timeout) (fun env n => env.image n d) (fun i => .image i)

def GetTimestamp (img : Image) : M Nat :=
  invoke (.GetTimestamp img) (fun env n => env.timestamp n img) (fun t => .timestamp t)

def RequeueBuffer (d : Dev) (img : Image) : M Unit :=
  invoke (.RequeueBuffer d img) (fun _ _ => ()) (fun _ => .unit)

def OpenSystem : M Unit :=
  invoke .OpenSystem (fun _ _ => ()) (fun _ => .unit)

def UpdateDevices (timeout : Nat) : M Unit :=
  invoke (.UpdateDevices timeout) (fun _ _ => ()) (fun _ => .unit)

def GetDevices : M (List DeviceInfo) :=
  invoke .GetDevices (fun env n => env.infos n) (fun l => .infos l)

def CreateDevice (info : DeviceInfo) : M Dev :=
  invoke (.CreateDevice info) (fun env n => env.device n info) (fun d => .device d)

def DestroyDevice (d : Dev) : M Unit :=
  invoke (.DestroyDevice d) (fun _ _ => ()) (fun _ => .unit)

/-- The call `std::this_thread::sleep_for`, which does not raise. -/
def sleep_for (seconds : Nat) : M Unit :=
  fun _ _ => .ok () [⟨.sleep_for seconds, .returned .unit⟩]

/-! ## `wait_for_ptp_sync` (lines 171-207) -/

/-- The `for` loop of one poll (lines 178-194) over the devices not yet
visited, entered with the current `masterFound`; gives back
`(masterFound, restartSyncCheck)`.  Both `break`s leave the loop with
`restartSyncCheck = true`. -/
def checkDevices : List Dev → Bool → M (Bool × Bool)
  | [], masterFound => pure (masterFound, false)
  | pDevice :: rest, masterFound => do
    let ptpStatus ← GetNodeValue_gcstring (.GetNodeMap pDevice) "PtpStatus"
    if ptpStatus = "Master" then
      if masterFound then
        pure (masterFound, true)
      else
        checkDevices rest true
    else if ptpStatus ≠ "Slave" then
      pure (masterFound, true)
    else
      checkDevices rest masterFound

/-- The `do ... while (true)` loop, at most `fuel` polls. -/
def wait_for_ptp_sync (devices : List Dev) : Nat → M Unit
  | 0 => outOfFuel
  | fuel + 1 => do
    let (masterFound, restartSyncCheck) ← checkDevices devices false
    if !restartSyncCheck && masterFound then
      pure ()
    else do
      sleep_for 1
      wait_for_ptp_sync devices fuel

/-! ## Constants (lines 12-18) -/

/-- The constant `EXPOSURE_TIME`. -/
def EXPOSURE_TIME : ℚ := 44000

/-- The constant `DELTA_TIME`: the `double` literal `1000.0`.  A `double`
that takes part in arithmetic in this program always holds an integer, and
is represented by that integer. -/
def DELTA_TIME : Int := 1000

/-- The constant `PTP_SYNC`. -/
def PTP_SYNC : Nat := 1

/-- The constant `FILE_NAME`. -/
def FILE_NAME : String := "Images/image_"

/-- The constant `PIXEL_FORMAT`. -/
def PIXEL_FORMAT : String := "BGR8"

/-! ## Arithmetic of `ptpDataSetLatchValue + DELTA_TIME` (line 126)

The left operand is an `int64_t`, the right one a `double`: the integer is
converted to `double`, the sum is computed in `double` (IEEE 754 binary64,
53 significant bits, round to nearest, ties to even), and the result is
converted back to `int64_t` for `SetNodeValue<int64_t>`. -/

/-- The spacing of binary64 values around the magnitude `a`: `1` below
`2 ^ 53`, doubling with each further binary digit.  The fuel bounds the
number of digits above the 53rd. -/
def quantum : Nat → Nat → Nat
  | 0, _ => 1
  | fuel + 1, a => if a < 2 ^ 53 then 1 else 2 * quantum fuel (a / 2)

/-- The integer `x` rounded to the nearest binary64 value, ties to the even
significand.  The result is an integer.  (Magnitudes here stay below
`2 ^ 65`, far from the binary64 overflow threshold.) -/
def roundBinary64 (x : Int) : Int :=
  let a := x.natAbs
  let q := quantum 64 a
  let lo := a / q
  let r := a % q
  let m := if 2 * r < q then lo else if q < 2 * r then lo + 1
    else if lo % 2 = 0 then lo else lo + 1
  Int.sign x * ((m * q : Nat) : Int)

/-- The `double` value of `ptpDataSetLatchValue + DELTA_TIME`. -/
def executeTimeDouble (ptpDataSetLatchValue : Int) : Int :=
  roundBinary64 (roundBinary64 ptpDataSetLatchValue + DELTA_TIME)

/-- Conversion of an integral `double` to `int64_t`: the value itself when it
is in range, undefined otherwise. -/
def double_to_int64 (x : Int) : Option Int :=
  if -(2 ^ 63) ≤ x ∧ x < 2 ^ 63 then some x else none

/-! ## Persistence (lines 35-88) -/

/-- The constructor `Save::ImageParams params(img->GetWidth(),
img->GetHeight(), img->GetBitsPerPixel())`. -/
def ImageParams (img : Image) : M Unit :=
  invoke (.ImageParams img) (fun _ _ => ()) (fun _ => .unit)

/-- The constructor `Save::ImageWriter writer(params, filename)`. -/
def ImageWriter (filename : String) : M Unit :=
  invoke (.ImageWriter filename) (fun _ _ => ()) (fun _ => .unit)

def SetRaw (ext : String) : M Unit :=
  invoke (.SetRaw ext) (fun _ _ => ()) (fun _ => .unit)

/-- The call `writer.SetPng(ext, 0, false)`. -/
def SetPng (ext : String) : M Unit :=
  invoke (.SetPng ext) (fun _ _ => ()) (fun _ => .unit)

/-- The statement `writer << img->GetData()`. -/
def write (img : Image) : M Unit :=
  invoke (.write img) (fun _ _ => ()) (fun _ => .unit)

def ImageFactory_Copy (img : Image) : M Image :=
  invoke (.ImageFactory_Copy img) (fun env n => env.copy n img) (fun i => .image i)

def ImageFactory_Destroy (img : Image) : M Unit :=
  invoke (.ImageFactory_Destroy img) (fun _ _ => ()) (fun _ => .unit)

def GetPixelFormatName (format : String) : M Unit :=
  invoke (.GetPixelFormatName format) (fun _ _ => ()) (fun _ => .unit)

def SaveImageRAW (image : Image) (filename : String) : M Unit := do
  ImageParams image
  ImageWriter filename
  SetRaw ".raw"
  write image

def SaveImagePNG (image : Image) (filename : String) : M Unit := do
  GetPixelFormatName PIXEL_FORMAT
  let pConverted ← ImageFactory_Copy image
  ImageParams pConverted
  ImageWriter filename
  SetPng ".png"
  write pConverted
  ImageFactory_Destroy pConverted

/-! ## `shoot` (lines 90-169) -/

/-- A loop `for (size_t i = 0; i < devices.size(); i++)` whose body only uses
`devices.at(i)`. -/
def forEach {α : Type} : List α → (α → M Unit) → M Unit
  | [], _ => pure ()
  | x :: xs, body => do
    body x
    forEach xs body

/-- The expression `devices.at(0)`, which raises `std::out_of_range` on an
empty vector. -/
def at0 : List Dev → M Dev
  | [] => raise .std_exception
  | d :: _ => pure d

/-- The body of the capture loop (lines 140-161). -/
def captureOne (pDevice : Dev) : M Unit := do
  let deviceSerialNumber ← GetNodeValue_gcstring (.GetNodeMap pDevice) "DeviceSerialNumber"
  ExecuteNode (.GetNodeMap pDevice) "TransferStart"
  let pImage ← GetImage pDevice 3000
  ExecuteNode (.GetNodeMap pDevice) "TransferStop"
  let _ ← GetTimestamp pImage
  let png_file := FILE_NAME ++ deviceSerialNumber ++ ".png"
  let raw_file := FILE_NAME ++ deviceSerialNumber ++ ".raw"
  SaveImagePNG pImage png_file
  SaveImageRAW pImage raw_file
  RequeueBuffer pDevice pImage

/-- The scheduling part (lines 112-134): latch, read the latch, write the
execute time, fire. -/
def schedule (devices : List Dev) : M Unit := do
  let d0 ← at0 devices
  ExecuteNode (.GetNodeMap d0) "PtpDataSetLatch"
  let ptpDataSetLatchValue ← GetNodeValue_int64 (.GetNodeMap d0) "PtpDataSetLatchValue"
  match double_to_int64 (executeTimeDouble ptpDataSetLatchValue) with
  | none => undefinedBehaviour
  | some executeTime => do
    SetNodeValue .GetTLSystemNodeMap "ActionCommandExecuteTime" (.int64 executeTime)
    ExecuteNode .GetTLSystemNodeMap "ActionCommandFireCommand"

def shoot (devices : List Dev) : M Unit := do
  forEach devices StartStream
  schedule devices
  forEach devices captureOne
  forEach devices StopStream

/-! ## `sync_and_prep` (lines 209-389) -/

/-- The body of the preparation loop (lines 213-340). -/
def prepareOne (device : Dev) : M Unit := do
  let _ ← GetNodeValue_gcstring (.GetNodeMap device) "DeviceSerialNumber"
  SetNodeValue (.GetNodeMap device) "ExposureAuto" (.gcstring "Off")
  SetNodeValue (.GetNodeMap device) "ExposureTime" (.double EXPOSURE_TIME)
  SetNodeValue (.GetNodeMap device) "GainAuto" (.gcstring "Off")
  SetNodeValue (.GetNodeMap device) "Gain" (.double 12)
  let _ ← GetNodeValue_double (.GetNodeMap device) "ExposureTime"
  SetNodeValue (.GetNodeMap device) "TriggerSelector" (.gcstring "FrameStart")
  SetNodeValue (.GetNodeMap device) "TriggerMode" (.gcstring "On")
  SetNodeValue (.GetNodeMap device) "TriggerSource" (.gcstring "Action0")
  let _ ← GetNodeValue_gcstring (.GetNodeMap device) "TriggerSource"
  SetNodeValue (.GetNodeMap device) "ActionUnconditionalMode" (.gcstring "On")
  SetNodeValue (.GetNodeMap device) "ActionSelector" (.int64 0)
  SetNodeValue (.GetNodeMap device) "ActionDeviceKey" (.int64 1)
  SetNodeValue (.GetNodeMap device) "ActionGroupKey" (.int64 1)
  SetNodeValue (.GetNodeMap device) "ActionGroupMask" (.int64 1)
  SetNodeValue (.GetNodeMap device) "PtpEnable" (.bool true)
  let _ ← GetNodeValue_bool (.GetNodeMap device) "PtpEnable"
  SetNodeValue (.GetTLStreamNodeMap device) "StreamAutoNegotiatePacketSize" (.bool true)
  SetNodeValue (.GetTLStreamNodeMap device) "StreamPacketResendEnable" (.bool true)
  SetNodeValue (.GetNodeMap device) "TransferControlMode" (.gcstring "UserControlled")
  SetNodeValue (.GetNodeMap device) "TransferOperationMode" (.gcstring "Continuous")
  ExecuteNode (.GetNodeMap device) "TransferStop"
  let _ ← GetNodeValue_gcstring (.GetNodeMap device) "TransferControlMode"
  let _ ← GetNodeValue_gcstring (.GetNodeMap device) "TransferOperationMode"
  SetNodeValue (.GetNodeMap device) "PixelFormat" (.gcstring "BayerRG16")

/-- The session-level preparation of the broadcast channel (lines 353-371). -/
def prepareSystem : M Unit := do
  SetNodeValue .GetTLSystemNodeMap "ActionCommandDeviceKey" (.int64 1)
  SetNodeValue .GetTLSystemNodeMap "ActionCommandGroupKey" (.int64 1)
  SetNodeValue .GetTLSystemNodeMap "ActionCommandGroupMask" (.int64 1)
  SetNodeValue .GetTLSystemNodeMap "ActionCommandTargetIP" (.int64 0xFFFFFFFF)

def sync_and_prep (devices : List Dev) (fuel : Nat) : M Unit := do
  forEach devices prepareOne
  prepareSystem
  if PTP_SYNC ≠ 0 then
    wait_for_ptp_sync devices fuel
  else
    pure ()

/-! ## `main` (lines 391-441) -/

/-- The loop that creates the discovered cameras (lines 408-412). -/
def createDevices : List DeviceInfo → M (List Dev)
  | [] => pure []
  | deviceInfo :: rest => do
    let device ← CreateDevice deviceInfo
    let vDevices ← createDevices rest
    pure (device :: vDevices)

/-- The `try` block of `main`, followed by the final `return 0`. -/
def main_try (fuel : Nat) : M Int := do
  OpenSystem
  UpdateDevices 1000
  let deviceInfos ← GetDevices
  if deviceInfos.length = 0 then
    pure 0
  else do
    let vDevices ← createDevices deviceInfos
    sync_and_prep vDevices fuel
    shoot vDevices
    forEach vDevices DestroyDevice
    pure 0

/-- The function `main`: the three handlers turn an exception into the exit
code `-1`. -/
def main (fuel : Nat) (env : Env) : Res Int :=
  match main_try fuel env 0 with
  | .ok code evs => .ok code evs
  | .throw .GenericException evs => .ok (-1) evs
  | .throw .std_exception evs => .ok (-1) evs
  | .throw .unexpected evs => .ok (-1) evs
  | .outOfFuel evs => .outOfFuel evs
  | .undefined evs => .undefined evs


/-! ## Observations on the event log -/

/-- Every event of every run of `m` is a call that satisfies `p`. -/
def Only {α : Type} (p : Call → Prop) (m : M α) : Prop :=
  ∀ env n, ∀ ev ∈ (m env n).events, p ev.call

/-- The call returned. -/
def Event.returns (ev : Event) : Prop := ∃ r, ev.outcome = .returned r

/-- A result in which no call raised, except the last one when the run was
left by an exception, which is then the exception of that call. -/
def Res.Tidy {α : Type} : Res α → Prop
  | .ok _ evs => ∀ ev ∈ evs, ev.returns
  | .throw e evs => ∃ pre c, evs = pre ++ [⟨c, .raised e⟩] ∧ ∀ ev ∈ pre, ev.returns
  | .outOfFuel evs => ∀ ev ∈ evs, ev.returns
  | .undefined evs => ∀ ev ∈ evs, ev.returns

/-- All results of `m` are tidy. -/
def Tidy {α : Type} (m : M α) : Prop := ∀ env n, (m env n).Tidy

/-- The read of `PtpStatus` on a device. -/
def ptpStatusRead (d : Dev) : Call := .GetNodeValue (.GetNodeMap d) "PtpStatus"

/-- The events of a poll in which every device of the list was read, in list
order, and answered the given statuses. -/
def pollEvents : List Dev → List String → List Event
  | d :: ds, s :: ss => ⟨ptpStatusRead d, .returned (.value (.gcstring s))⟩ :: pollEvents ds ss
  | _, _ => []

/-- The statuses the devices answer when they are polled in list order from
call number `n` on. -/
def reported (env : Env) : Nat → List Dev → List String
  | _, [] => []
  | n, d :: ds => env.gcstring n (.GetNodeMap d) "PtpStatus" :: reported env (n + 1) ds

/-- None of the status reads of a poll that starts at call number `n` raises. -/
def allAnswer (env : Env) : Nat → List Dev → Prop
  | _, [] => True
  | n, d :: ds => env.raises n (ptpStatusRead d) = none ∧ allAnswer env (n + 1) ds

/-- A call that returned without a value. -/
def done (c : Call) : Event := ⟨c, .returned .unit⟩

/-- The command `TransferStart` on a device. -/
def transferStart (d : Dev) : Call := .ExecuteNode (.GetNodeMap d) "TransferStart"

/-- The command `TransferStop` on a device. -/
def transferStop (d : Dev) : Call := .ExecuteNode (.GetNodeMap d) "TransferStop"

/-- What one pass of the capture loop obtained from the camera. -/
structure Shot where
  serial : String
  image : Image
  converted : Image
  timestamp : Nat

/-- The events of one complete pass of the capture loop for device `d`. -/
def captureBlock (d : Dev) (s : Shot) : List Event :=
  [⟨.GetNodeValue (.GetNodeMap d) "DeviceSerialNumber", .returned (.value (.gcstring s.serial))⟩,
   done (transferStart d),
   ⟨.GetImage d 3000, .returned (.image s.image)⟩,
   done (transferStop d),
   ⟨.GetTimestamp s.image, .returned (.timestamp s.timestamp)⟩,
   done (.GetPixelFormatName PIXEL_FORMAT),
   ⟨.ImageFactory_Copy s.image, .returned (.image s.converted)⟩,
   done (.ImageParams s.converted),
   done (.ImageWriter (FILE_NAME ++ s.serial ++ ".png")),
   done (.SetPng ".png"),
   done (.write s.converted),
   done (.ImageFactory_Destroy s.converted),
   done (.ImageParams s.image),
   done (.ImageWriter (FILE_NAME ++ s.serial ++ ".raw")),
   done (.SetRaw ".raw"),
   done (.write s.image),
   done (.RequeueBuffer d s.image)]

/-- The events of complete passes of the capture loop, one per device. -/
def captureEvents : List Dev → List Shot → List Event
  | d :: ds, s :: ss => captureBlock d s ++ captureEvents ds ss
  | _, _ => []

/-- The events of the scheduling part when every call returned: the latch on
device `d0`, the read of the latched value `L`, the write of the execute time
`t` and the fire command. -/
def scheduleEvents (d0 : Dev) (L t : Int) : List Event :=
  [done (.ExecuteNode (.GetNodeMap d0) "PtpDataSetLatch"),
   ⟨.GetNodeValue (.GetNodeMap d0) "PtpDataSetLatchValue", .returned (.value (.int64 L))⟩,
   done (.SetNodeValue .GetTLSystemNodeMap "ActionCommandExecuteTime" (.int64 t)),
   done (.ExecuteNode .GetTLSystemNodeMap "ActionCommandFireCommand")]

/-- The four calls of the scheduling part. -/
def isSchedule : Call → Bool
  | .ExecuteNode _ name => name == "PtpDataSetLatch" || name == "ActionCommandFireCommand"
  | .GetNodeValue _ name => name == "PtpDataSetLatchValue"
  | .SetNodeValue _ name _ => name == "ActionCommandExecuteTime"
  | _ => false

/-- The calls of the capture loop that act on the transfer gate, the buffer
or the files. -/
def isCapture : Call → Prop
  | .ExecuteNode _ name => name = "TransferStart" ∨ name = "TransferStop"
  | .GetImage _ _ => True
  | .GetTimestamp _ => True
  | .RequeueBuffer _ _ => True
  | .ImageFactory_Copy _ => True
  | .ImageFactory_Destroy _ => True
  | .ImageParams _ => True
  | .ImageWriter _ => True
  | .SetRaw _ => True
  | .SetPng _ => True
  | .write _ => True
  | _ => False

/-- The values written to `ActionCommandExecuteTime` of the broadcast
channel, oldest first. -/
def executeTimesWritten : List Event → List Int
  | [] => []
  | ⟨.SetNodeValue .GetTLSystemNodeMap name (.int64 t), _⟩ :: evs =>
    if name = "ActionCommandExecuteTime" then t :: executeTimesWritten evs
    else executeTimesWritten evs
  | _ :: evs => executeTimesWritten evs

/-- The configured features of all node maps. -/
abbrev Features := NodeMap → String → Value

/-- A `SetNodeValue` that returned stores its value in the feature. -/
def setFeature (σ : Features) (ev : Event) : Features :=
  match ev with
  | ⟨.SetNodeValue m name v, .returned _⟩ =>
    fun m2 name2 => if m2 = m ∧ name2 = name then v else σ m2 name2
  | _ => σ

/-- The features after the events, starting from `init`. -/
def features (init : Features) (evs : List Event) : Features :=
  evs.foldl setFeature init

/-- The transfer gate of each device: `true` when the device may transmit.
A `TransferStart` opens the gate of its device (also when the call raised,
since the command may have reached the camera); a `TransferStop` that
returned closes it. -/
def gateStep (g : Dev → Bool) (ev : Event) : Dev → Bool :=
  match ev with
  | ⟨.ExecuteNode (.GetNodeMap d) name, o⟩ =>
    if name = "TransferStart" then fun a => if a = d then true else g a
    else if name = "TransferStop" ∧ o = .returned .unit then
      fun a => if a = d then false else g a
    else g
  | _ => g

/-- The gates after the events, starting from `g`. -/
def gates (g : Dev → Bool) (evs : List Event) : Dev → Bool :=
  evs.foldl gateStep g

/-- The handles that `CreateDevice` gave back, oldest first. -/
def created : List Event → List Dev
  | [] => []
  | ⟨.CreateDevice _, .returned (.device d)⟩ :: evs => d :: created evs
  | _ :: evs => created evs

/-- The handles given to a `DestroyDevice` that returned, oldest first. -/
def destroyed : List Event → List Dev
  | [] => []
  | ⟨.DestroyDevice d, .returned _⟩ :: evs => d :: destroyed evs
  | _ :: evs => destroyed evs

/-! ## Concrete environments -/

/-- Two cameras are discovered; no call raises; camera `0` is PTP master and
the others are slaves in every poll; the latched clock is `5`. -/
def envSync : Env where
  raises := fun _ _ => none
  gcstring := fun _ m name =>
    match m with
    | .GetNodeMap 0 => if name = "PtpStatus" then "Master" else "A"
    | _ => if name = "PtpStatus" then "Slave" else "B"
  int64 := fun _ _ _ => 5
  double := fun _ _ _ => 44000
  bool := fun _ _ _ => true
  infos := fun _ => [10, 11]
  device := fun _ info => info - 10
  image := fun _ d => 100 + d
  copy := fun _ img => 100 + img
  timestamp := fun _ _ => 7

/-- As `envSync`, but both cameras report `Master` in the first poll of a
run that starts polling at call `0`. -/
def envLate : Env where
  raises := fun _ _ => none
  gcstring := fun n m name =>
    if n < 2 then "Master" else
    match m with
    | .GetNodeMap 0 => if name = "PtpStatus" then "Master" else "A"
    | _ => if name = "PtpStatus" then "Slave" else "B"
  int64 := fun _ _ _ => 5
  double := fun _ _ _ => 44000
  bool := fun _ _ _ => true
  infos := fun _ => [10, 11]
  device := fun _ info => info - 10
  image := fun _ d => 100 + d
  copy := fun _ img => 100 + img
  timestamp := fun _ _ => 7

/-- As `envSync`, but `GetImage` on camera `0` raises (retrieval timeout). -/
def envTimeout : Env where
  raises := fun _ c =>
    match c with
    | .GetImage 0 _ => some .GenericException
    | _ => none
  gcstring := fun _ m name =>
    match m with
    | .GetNodeMap 0 => if name = "PtpStatus" then "Master" else "A"
    | _ => if name = "PtpStatus" then "Slave" else "B"
  int64 := fun _ _ _ => 5
  double := fun _ _ _ => 44000
  bool := fun _ _ _ => true
  infos := fun _ => [10, 11]
  device := fun _ info => info - 10
  image := fun _ d => 100 + d
  copy := fun _ img => 100 + img
  timestamp := fun _ _ => 7

/-- As `envSync`, but the latched clock is `2 ^ 53 + 1`. -/
def envLatch : Env where
  raises := fun _ _ => none
  gcstring := fun _ m name =>
    match m with
    | .GetNodeMap 0 => if name = "PtpStatus" then "Master" else "A"
    | _ => if name = "PtpStatus" then "Slave" else "B"
  int64 := fun _ _ _ => 9007199254740993
  double := fun _ _ _ => 44000
  bool := fun _ _ _ => true
  infos := fun _ => [10, 11]
  device := fun _ info => info - 10
  image := fun _ d => 100 + d
  copy := fun _ img => 100 + img
  timestamp := fun _ _ => 7

/-- No camera is discovered. -/
def envNone : Env where
  raises := fun _ _ => none
  gcstring := fun _ _ _ => ""
  int64 := fun _ _ _ => 0
  double := fun _ _ _ => 0
  bool := fun _ _ _ => false
  infos := fun _ => []
  device := fun _ info => info
  image := fun _ d => d
  copy := fun _ img => img
  timestamp := fun _ _ => 0

/-- In `sync_and_prep` every write to one of the six key, group and mask
features writes `1`. -/
def keyWrite (c : Call) : Prop :=
  ∀ m name v, c = .SetNodeValue m name v →
    name ∈ ["ActionDeviceKey", "ActionGroupKey", "ActionGroupMask", "ActionCommandDeviceKey",
      "ActionCommandGroupKey", "ActionCommandGroupMask"] → v = .int64 1

/-- The log of the preparation of cameras `0` and `1` under `envSync`. -/
def prepLog : List Event := (sync_and_prep [0, 1] 1 envSync 0).events

/-- The log of a capture from cameras `0` and `1` under `envSync`. -/
def shootLog : List Event := (shoot [0, 1] envSync 0).events

/-- The log of a whole session under `envSync`. -/
def mainLog : List Event := (main 1 envSync).events

/-- The log of a session under `envTimeout`. -/
def timeoutLog : List Event := (main 1 envTimeout).events

/-- Neither a creation nor a destruction of a device. -/
def notLifecycle : Call → Prop
  | .CreateDevice _ => False
  | .DestroyDevice _ => False
  | _ => True

/-- The four calls of the scheduling part on reference device `d0` with
execute time `t`, in program order. -/
def scheduleCalls (d0 : Dev) (t : Int) : List Call :=
  [.ExecuteNode (.GetNodeMap d0) "PtpDataSetLatch",
   .GetNodeValue (.GetNodeMap d0) "PtpDataSetLatchValue",
   .SetNodeValue .GetTLSystemNodeMap "ActionCommandExecuteTime" (.int64 t),
   .ExecuteNode .GetTLSystemNodeMap "ActionCommandFireCommand"]

/-- Every device of the list has its transfer gate closed. -/
def Closed (devices : List Dev) (g : Dev → Bool) : Prop :=
  ∀ d ∈ devices, g d = false

/-- Among the devices of the list, only `d` may have its gate open. -/
def OnlyOpen (devices : List Dev) (d : Dev) (g : Dev → Bool) : Prop :=
  ∀ a ∈ devices, a ≠ d → g a = false

/-- At most one device of the list has its transfer gate open. -/
def AtMostOneOpen (devices : List Dev) (g : Dev → Bool) : Prop :=
  ∀ a ∈ devices, ∀ b ∈ devices, g a = true → g b = true → a = b

/-- Neither a `TransferStart` nor a `TransferStop`. -/
def noGate (c : Call) : Prop :=
  ∀ a, c ≠ transferStart a ∧ c ≠ transferStop a

/-- Not a `TransferStart`. -/
def noStart (c : Call) : Prop :=
  ∀ a, c ≠ transferStart a

/-- From every gate state that satisfies `P`, at every point of every run of
`m` at most one device of the list has its gate open, and when `m` returns
the gates satisfy `Q`. -/
def Holds {α : Type} (devices : List Dev) (P Q : (Dev → Bool) → Prop) (m : M α) : Prop :=
  ∀ env n g, P g →
    (∀ p, p <+: (m env n).events → AtMostOneOpen devices (gates g p)) ∧
    (∀ a evs, m env n = .ok a evs → Q (gates g evs))

/-- The devices of the `TransferStart` commands issued, oldest first. -/
def transferStarts : List Event → List Dev
  | [] => []
  | ⟨.ExecuteNode (.GetNodeMap d) name, _⟩ :: evs =>
    if name = "TransferStart" then d :: transferStarts evs else transferStarts evs
  | _ :: evs => transferStarts evs

/-- The devices of the `TransferStop` commands that returned, oldest first. -/
def transferStops : List Event → List Dev
  | [] => []
  | ⟨.ExecuteNode (.GetNodeMap d) name, .returned _⟩ :: evs =>
    if name = "TransferStop" then d :: transferStops evs else transferStops evs
  | _ :: evs => transferStops evs

theorem bind_run {α β : Type} (m : M α) (f : α → M β) (env : Env) (n : Nat) :
    (m >>= f) env n = match m env n with
      | .ok a evs => (f a env (n + evs.length)).prepend evs
      | .throw e evs => .throw e evs
      | .outOfFuel evs => .outOfFuel evs
      | .undefined evs => .undefined evs := rfl

theorem pure_run {α : Type} (a : α) (env : Env) (n : Nat) :
    (pure a : M α) env n = .ok a [] := rfl

theorem prepend_eq_ok {α : Type} (pre : List Event) (r : Res α) (a : α) (evs : List Event) :
    r.prepend pre = .ok a evs ↔ ∃ e2, r = .ok a e2 ∧ evs = pre ++ e2 := by
  cases r with
  | ok a2 e2 =>
    simp only [Res.prepend, Res.ok.injEq]
    constructor
    · rintro ⟨rfl, rfl⟩; exact ⟨e2, ⟨rfl, rfl⟩, rfl⟩
    · rintro ⟨e3, ⟨rfl, rfl⟩, rfl⟩; exact ⟨rfl, rfl⟩
  | _ => simp [Res.prepend]

theorem bind_eq_ok {α β : Type} (m : M α) (f : α → M β) (env : Env) (n : Nat) (b : β)
    (evs : List Event) :
    (m >>= f) env n = .ok b evs ↔
      ∃ a e1 e2, m env n = .ok a e1 ∧ f a env (n + e1.length) = .ok b e2 ∧ evs = e1 ++ e2 := by
  rw [bind_run]
  cases h : m env n with
  | ok a e1 =>
    simp only [prepend_eq_ok, Res.ok.injEq]
    constructor
    · rintro ⟨e2, h2, rfl⟩; exact ⟨a, e1, e2, ⟨rfl, rfl⟩, h2, rfl⟩
    · rintro ⟨a2, e3, e2, ⟨rfl, rfl⟩, h2, rfl⟩; exact ⟨e2, h2, rfl⟩
  | _ => simp

theorem invoke_eq_ok {α : Type} (c : Call) (val : Env → Nat → α) (ret : α → Ret) (env : Env)
    (n : Nat) (a : α) (evs : List Event) :
    invoke c val ret env n = .ok a evs ↔
      env.raises n c = none ∧ a = val env n ∧ evs = [⟨c, .returned (ret (val env n))⟩] := by
  unfold invoke
  cases h : env.raises n c <;> simp [eq_comm]

/-! ## PTP negotiation -/

theorem checkDevices_cons (d : Dev) (ds : List Dev) (mf : Bool) (env : Env) (n : Nat) :
    checkDevices (d :: ds) mf env n =
      match env.raises n (ptpStatusRead d) with
      | some e => .throw e [⟨ptpStatusRead d, .raised e⟩]
      | none =>
        let s := env.gcstring n (.GetNodeMap d) "PtpStatus"
        let ev : Event := ⟨ptpStatusRead d, .returned (.value (.gcstring s))⟩
        if s = "Master" then
          if mf then .ok (mf, true) [ev] else (checkDevices ds true env (n + 1)).prepend [ev]
        else if s ≠ "Slave" then .ok (mf, true) [ev]
        else (checkDevices ds mf env (n + 1)).prepend [ev] := by
  rw [checkDevices, bind_run, GetNodeValue_gcstring, invoke, ptpStatusRead]
  cases h : env.raises n (Call.GetNodeValue (NodeMap.GetNodeMap d) "PtpStatus") with
  | some e => simp
  | none =>
    simp only [List.length_singleton]
    split_ifs <;> simp [pure_run, Res.prepend]

theorem checkDevices_ok (devices : List Dev) :
    ∀ (mf : Bool) (env : Env) (n : Nat) (mf2 : Bool) (evs : List Event),
      checkDevices devices mf env n = .ok (mf2, false) evs →
        evs = pollEvents devices (reported env n devices) ∧ allAnswer env n devices ∧
        (∀ s ∈ reported env n devices, s = "Master" ∨ s = "Slave") ∧
        (reported env n devices).count "Master" + mf.toNat = mf2.toNat := by
  induction devices with
  | nil =>
    intro mf env n mf2 evs h
    simp [checkDevices, pure_run] at h
    obtain ⟨rfl, rfl⟩ := h
    simp [pollEvents, reported, allAnswer]
  | cons d ds ih =>
    intro mf env n mf2 evs h
    rw [checkDevices_cons] at h
    cases hr : env.raises n (ptpStatusRead d) with
    | some e => simp [hr] at h
    | none =>
      simp only [hr] at h
      by_cases hM : env.gcstring n (.GetNodeMap d) "PtpStatus" = "Master"
      · simp only [hM, if_true] at h
        cases mf with
        | true => simp at h
        | false =>
          simp only [Bool.false_eq_true, if_false, prepend_eq_ok] at h
          obtain ⟨e2, h2, rfl⟩ := h
          obtain ⟨h3, h4, h5, h6⟩ := ih true env (n + 1) mf2 e2 h2
          refine ⟨?_, ⟨hr, h4⟩, ?_, ?_⟩
          · simp [pollEvents, reported, hM, h3]
          · simpa [reported, hM] using h5
          · simp [reported, hM] at h6 ⊢
            omega
      · simp only [hM, if_false] at h
        by_cases hS : env.gcstring n (.GetNodeMap d) "PtpStatus" = "Slave"
        · simp only [hS, ne_eq, not_true_eq_false, if_false, prepend_eq_ok] at h
          obtain ⟨e2, h2, rfl⟩ := h
          obtain ⟨h3, h4, h5, h6⟩ := ih mf env (n + 1) mf2 e2 h2
          refine ⟨?_, ⟨hr, h4⟩, ?_, ?_⟩
          · simp [pollEvents, reported, hS, h3]
          · simpa [reported, hS] using h5
          · simpa [reported, hS] using h6
        · simp [hS] at h

theorem checkDevices_complete (devices : List Dev) :
    ∀ (mf : Bool) (env : Env) (n : Nat), allAnswer env n devices →
      (∀ s ∈ reported env n devices, s = "Master" ∨ s = "Slave") →
      (reported env n devices).count "Master" + mf.toNat ≤ 1 →
      checkDevices devices mf env n =
        .ok (decide ((reported env n devices).count "Master" + mf.toNat = 1), false)
          (pollEvents devices (reported env n devices)) := by
  induction devices with
  | nil =>
    intro mf env n _ _ _
    cases mf <;> simp [checkDevices, pure_run, reported, pollEvents]
  | cons d ds ih =>
    intro mf env n ha hs hc
    rw [checkDevices_cons]
    obtain ⟨hr, ha2⟩ := ha
    simp only [hr]
    simp only [reported, List.mem_cons, forall_eq_or_imp] at hs
    obtain ⟨hs1, hs2⟩ := hs
    rcases hs1 with hM | hS
    · simp only [reported, hM, List.count_cons_self] at hc ⊢
      cases mf with
      | true => simp at hc
      | false =>
        simp only [Bool.toNat_false, add_zero] at hc ⊢
        have := ih true env (n + 1) ha2 hs2 (by simpa using hc)
        simp [this, Res.prepend, pollEvents]
    · have hne : ¬ ("Slave" = "Master") := by decide
      simp only [reported, hS] at hc ⊢
      rw [List.count_cons_of_ne (by decide)] at hc ⊢
      have := ih mf env (n + 1) ha2 hs2 hc
      simp [this, Res.prepend, pollEvents, hne]

theorem length_reported (env : Env) (devices : List Dev) :
    ∀ n, (reported env n devices).length = devices.length := by
  induction devices with
  | nil => intro n; rfl
  | cons d ds ih => intro n; simp [reported, ih]

theorem count_slave (l : List String) (h : ∀ s ∈ l, s = "Master" ∨ s = "Slave") :
    l.count "Master" + l.count "Slave" = l.length := by
  induction l with
  | nil => rfl
  | cons s ss ih =>
    have h1 := h s (List.mem_cons_self _ _)
    have h2 := ih (fun t ht => h t (List.mem_cons_of_mem _ ht))
    rcases h1 with rfl | rfl
    · rw [List.count_cons_self, List.count_cons_of_ne (by decide)]
      simp only [List.length_cons]; omega
    · rw [List.count_cons_self, List.count_cons_of_ne (by decide)]
      simp only [List.length_cons]; omega

theorem wait_for_ptp_sync_ok (devices : List Dev) (fuel : Nat) :
    ∀ (env : Env) (n : Nat) (evs : List Event),
      wait_for_ptp_sync devices fuel env n = .ok () evs →
        ∃ before statuses, evs = before ++ pollEvents devices statuses ∧
          statuses.length = devices.length ∧ statuses.count "Master" = 1 ∧
          statuses.count "Slave" = devices.length - 1 := by
  induction fuel with
  | zero => intro env n evs h; simp [wait_for_ptp_sync, outOfFuel] at h
  | succ k ih =>
    intro env n evs h
    rw [wait_for_ptp_sync, bind_eq_ok] at h
    obtain ⟨⟨mf, rs⟩, e1, e2, h1, h2, rfl⟩ := h
    simp only at h2
    cases rs with
    | true =>
      simp only [Bool.not_true, Bool.false_and, Bool.false_eq_true, if_false, bind_eq_ok] at h2
      obtain ⟨_, e3, e4, h3, h4, rfl⟩ := h2
      obtain ⟨before, statuses, rfl, hl, hc⟩ := ih _ _ _ h4
      refine ⟨e1 ++ (e3 ++ before), statuses, by simp, hl, hc⟩
    | false =>
      obtain ⟨h3, -, h5, h6⟩ := checkDevices_ok devices false env n mf e1 h1
      cases mf with
      | true =>
        simp [pure_run] at h2
        subst h2
        have hc : (reported env n devices).count "Master" = 1 := by simpa using h6
        have := count_slave _ h5
        rw [length_reported, hc] at this
        exact ⟨[], reported env n devices, by simp [h3], length_reported _ _ _, hc, by omega⟩
      | false =>
        simp only [Bool.not_false, Bool.true_and, Bool.false_eq_true, if_false, bind_eq_ok] at h2
        obtain ⟨_, e3, e4, h3, h4, rfl⟩ := h2
        obtain ⟨before, statuses, rfl, hl, hc⟩ := ih _ _ _ h4
        exact ⟨e1 ++ (e3 ++ before), statuses, by simp, hl, hc⟩
theorem events_prepend {α : Type} (pre : List Event) (r : Res α) :
    (r.prepend pre).events = pre ++ r.events := by
  cases r <;> rfl

theorem events_bind {α β : Type} (m : M α) (f : α → M β) (env : Env) (n : Nat) :
    ((m >>= f) env n).events = (m env n).events ++
      (match m env n with
        | .ok a evs => (f a env (n + evs.length)).events
        | _ => []) := by
  rw [bind_run]
  cases h : m env n with
  | ok a evs => simp only [events_prepend]; rfl
  | _ => simp [Res.events]

theorem only_bind {α β : Type} {p : Call → Prop} {m : M α} {f : α → M β}
    (hm : Only p m) (hf : ∀ a, Only p (f a)) : Only p (m >>= f) := by
  intro env n ev hev
  rw [events_bind] at hev
  rcases List.mem_append.1 hev with h | h
  · exact hm env n ev h
  · cases hr : m env n with
    | ok a evs => rw [hr] at h; exact hf a env _ ev h
    | _ => rw [hr] at h; simp at h

theorem only_invoke {α : Type} {p : Call → Prop} {c : Call} (val : Env → Nat → α)
    (ret : α → Ret) (h : p c) : Only p (invoke c val ret) := by
  intro env n ev hev
  unfold invoke at hev
  cases hr : env.raises n c <;> simp [hr, Res.events] at hev <;> subst hev <;> exact h

theorem only_pure {α : Type} {p : Call → Prop} (a : α) : Only p (pure a : M α) := by
  intro env n ev hev
  simp [pure_run, Res.events] at hev

theorem only_forEach {α : Type} {p : Call → Prop} (l : List α) (body : α → M Unit)
    (h : ∀ x ∈ l, Only p (body x)) : Only p (forEach l body) := by
  induction l with
  | nil => exact only_pure ()
  | cons x xs ih =>
    rw [forEach]
    exact only_bind (h x (List.mem_cons_self _ _))
      (fun _ => ih (fun y hy => h y (List.mem_cons_of_mem _ hy)))

theorem tidy_prepend {α : Type} (pre : List Event) (r : Res α) (hp : ∀ ev ∈ pre, ev.returns)
    (hr : r.Tidy) : (r.prepend pre).Tidy := by
  cases r with
  | throw e evs =>
    obtain ⟨p2, c, rfl, h2⟩ := hr
    refine ⟨pre ++ p2, c, by simp, ?_⟩
    intro ev hev
    rcases List.mem_append.1 hev with h | h
    · exact hp ev h
    · exact h2 ev h
  | _ =>
    intro ev hev
    rcases List.mem_append.1 hev with h | h
    · exact hp ev h
    · exact hr ev h

theorem tidy_bind_run {α β : Type} (m : M α) (f : α → M β) (env : Env) (n : Nat)
    (hm : (m env n).Tidy)
    (hf : ∀ a evs, m env n = .ok a evs → (f a env (n + evs.length)).Tidy) :
    ((m >>= f) env n).Tidy := by
  rw [bind_run]
  cases h : m env n with
  | ok a evs =>
    rw [h] at hm
    exact tidy_prepend evs _ hm (hf a evs h)
  | _ => rw [h] at hm; exact hm

theorem tidy_bind {α β : Type} {m : M α} {f : α → M β} (hm : Tidy m) (hf : ∀ a, Tidy (f a)) :
    Tidy (m >>= f) :=
  fun env n => tidy_bind_run m f env n (hm env n) (fun a _ _ => hf a env _)

theorem tidy_invoke {α : Type} (c : Call) (val : Env → Nat → α) (ret : α → Ret) :
    Tidy (invoke c val ret) := by
  intro env n
  unfold invoke
  cases hr : env.raises n c with
  | none => simp [Res.Tidy, Event.returns]
  | some e => exact ⟨[], c, rfl, by simp⟩

theorem tidy_pure {α : Type} (a : α) : Tidy (pure a : M α) := by
  intro env n ev hev
  simp at hev

theorem tidy_forEach {α : Type} (l : List α) (body : α → M Unit)
    (h : ∀ x ∈ l, Tidy (body x)) : Tidy (forEach l body) := by
  induction l with
  | nil => exact tidy_pure ()
  | cons x xs ih =>
    rw [forEach]
    exact tidy_bind (h x (List.mem_cons_self _ _))
      (fun _ => ih (fun y hy => h y (List.mem_cons_of_mem _ hy)))

theorem tidy_captureOne (d : Dev) : Tidy (captureOne d) := by
  unfold captureOne SaveImagePNG SaveImageRAW GetNodeValue_gcstring ExecuteNode GetImage
    GetTimestamp GetPixelFormatName ImageFactory_Copy ImageParams ImageWriter SetPng SetRaw
    write ImageFactory_Destroy RequeueBuffer
  repeat (first | exact tidy_invoke _ _ _ | apply tidy_bind | intro _)

theorem tidy_prepareOne (d : Dev) : Tidy (prepareOne d) := by
  unfold prepareOne GetNodeValue_gcstring GetNodeValue_double GetNodeValue_bool SetNodeValue
    ExecuteNode
  repeat (first | exact tidy_invoke _ _ _ | apply tidy_bind | intro _)

theorem prepend_nil {α : Type} (r : Res α) : r.prepend [] = r := by
  cases r <;> rfl

theorem pure_bind_run {α β : Type} (a : α) (f : α → M β) (env : Env) (n : Nat) :
    ((pure a : M α) >>= f) env n = f a env n := by
  rw [bind_run, pure_run]
  exact prepend_nil _

theorem events_invoke_bind {α β : Type} (c : Call) (val : Env → Nat → α) (ret : α → Ret)
    (f : α → M β) (env : Env) (n : Nat) :
    ((invoke c val ret >>= f) env n).events =
      match env.raises n c with
      | some e => [⟨c, .raised e⟩]
      | none => ⟨c, .returned (ret (val env n))⟩ :: (f (val env n) env (n + 1)).events := by
  rw [events_bind]
  unfold invoke
  cases env.raises n c <;> rfl

theorem events_invoke {α : Type} (c : Call) (val : Env → Nat → α) (ret : α → Ret)
    (env : Env) (n : Nat) :
    (invoke c val ret env n).events =
      match env.raises n c with
      | some e => [⟨c, .raised e⟩]
      | none => [⟨c, .returned (ret (val env n))⟩] := by
  unfold invoke
  cases env.raises n c <;> rfl


/-! ## Shape of the runs that return -/

theorem forEach_cons_eq_ok {α : Type} (x : α) (xs : List α) (body : α → M Unit) (env : Env)
    (n : Nat) (evs : List Event) :
    forEach (x :: xs) body env n = .ok () evs ↔
      ∃ e1 e2, body x env n = .ok () e1 ∧ forEach xs body env (n + e1.length) = .ok () e2 ∧
        evs = e1 ++ e2 := by
  rw [forEach, bind_eq_ok]
  constructor
  · rintro ⟨_, e1, e2, h1, h2, h3⟩; exact ⟨e1, e2, h1, h2, h3⟩
  · rintro ⟨e1, e2, h1, h2, h3⟩; exact ⟨(), e1, e2, h1, h2, h3⟩

theorem forEach_invoke_ok {α : Type} (c : α → Call) (l : List α) :
    ∀ (env : Env) (n : Nat) (evs : List Event),
      forEach l (fun x => invoke (c x) (fun _ _ => ()) (fun _ => Ret.unit)) env n = .ok () evs →
        evs = l.map (fun x => done (c x)) := by
  induction l with
  | nil => intro env n evs h; simpa [forEach, pure_run, eq_comm] using h
  | cons x xs ih =>
    intro env n evs h
    rw [forEach_cons_eq_ok] at h
    obtain ⟨e1, e2, h1, h2, rfl⟩ := h
    rw [invoke_eq_ok] at h1
    obtain ⟨-, -, rfl⟩ := h1
    rw [ih _ _ _ h2]
    rfl

theorem captureOne_ok (d : Dev) (env : Env) (n : Nat) (evs : List Event)
    (h : captureOne d env n = .ok () evs) : ∃ s : Shot, evs = captureBlock d s := by
  simp only [captureOne, SaveImagePNG, SaveImageRAW, bind_eq_ok, GetNodeValue_gcstring,
    ExecuteNode, GetImage, GetTimestamp, GetPixelFormatName, ImageFactory_Copy, ImageParams,
    ImageWriter, SetPng, SetRaw, write, ImageFactory_Destroy, RequeueBuffer, invoke_eq_ok] at h
  obtain ⟨serial, _, _, ⟨-, rfl, rfl⟩, ⟨_, _, _, ⟨-, -, rfl⟩, ⟨img, _, _, ⟨-, rfl, rfl⟩,
    ⟨_, _, _, ⟨-, -, rfl⟩, ⟨ts, _, _, ⟨-, rfl, rfl⟩, ⟨_, _, _, hpng, ⟨_, _, _, hraw,
    ⟨-, -, rfl⟩, rfl⟩, rfl⟩, rfl⟩, rfl⟩, rfl⟩, rfl⟩, rfl⟩ := h
  obtain ⟨_, _, _, ⟨-, -, rfl⟩, ⟨conv, _, _, ⟨-, rfl, rfl⟩, ⟨_, _, _, ⟨-, -, rfl⟩,
    ⟨_, _, _, ⟨-, -, rfl⟩, ⟨_, _, _, ⟨-, -, rfl⟩, ⟨_, _, _, ⟨-, -, rfl⟩, ⟨-, -, rfl⟩, rfl⟩,
    rfl⟩, rfl⟩, rfl⟩, rfl⟩, rfl⟩ := hpng
  obtain ⟨_, _, _, ⟨-, -, rfl⟩, ⟨_, _, _, ⟨-, -, rfl⟩, ⟨_, _, _, ⟨-, -, rfl⟩, ⟨-, -, rfl⟩,
    rfl⟩, rfl⟩, rfl⟩ := hraw
  exact ⟨⟨_, _, _, _⟩, rfl⟩

theorem forEach_captureOne_ok (devices : List Dev) :
    ∀ (env : Env) (n : Nat) (evs : List Event),
      forEach devices captureOne env n = .ok () evs →
        ∃ shots : List Shot, shots.length = devices.length ∧
          evs = captureEvents devices shots := by
  induction devices with
  | nil =>
    intro env n evs h
    refine ⟨[], rfl, ?_⟩
    simpa [forEach, pure_run, eq_comm, captureEvents] using h
  | cons d ds ih =>
    intro env n evs h
    rw [forEach_cons_eq_ok] at h
    obtain ⟨e1, e2, h1, h2, rfl⟩ := h
    obtain ⟨s, rfl⟩ := captureOne_ok d env n e1 h1
    obtain ⟨ss, hl, rfl⟩ := ih _ _ _ h2
    exact ⟨s :: ss, by simp [hl], rfl⟩

theorem schedule_ok (d : Dev) (ds : List Dev) (env : Env) (n : Nat) (evs : List Event)
    (h : schedule (d :: ds) env n = .ok () evs) :
    ∃ L t, double_to_int64 (executeTimeDouble L) = some t ∧
      L = wrap64 (env.int64 (n + 1) (.GetNodeMap d) "PtpDataSetLatchValue") ∧
      evs = scheduleEvents d L t := by
  simp only [schedule, at0, bind_eq_ok, pure_run, Res.ok.injEq, ExecuteNode,
    GetNodeValue_int64, invoke_eq_ok] at h
  obtain ⟨d0, _, _, ⟨rfl, rfl⟩, ⟨_, _, _, ⟨-, -, rfl⟩, ⟨L, _, _, ⟨-, rfl, rfl⟩, h2, rfl⟩, rfl⟩,
    rfl⟩ := h
  cases ht : double_to_int64 (executeTimeDouble
      (wrap64 (env.int64 (n + 1) (.GetNodeMap d) "PtpDataSetLatchValue"))) with
  | none =>
    simp only [List.length_nil, List.length_singleton, add_zero] at h2
    rw [ht] at h2
    simp [undefinedBehaviour] at h2
  | some t =>
    simp only [List.length_nil, List.length_singleton, add_zero] at h2
    rw [ht] at h2
    simp only [bind_eq_ok, SetNodeValue, ExecuteNode, invoke_eq_ok] at h2
    obtain ⟨_, _, _, ⟨-, -, rfl⟩, ⟨-, -, rfl⟩, rfl⟩ := h2
    exact ⟨_, t, ht, rfl, rfl⟩

theorem shoot_ok (d : Dev) (ds : List Dev) (env : Env) (n : Nat) (evs : List Event)
    (h : shoot (d :: ds) env n = .ok () evs) :
    ∃ (L t : Int) (shots : List Shot), double_to_int64 (executeTimeDouble L) = some t ∧
      shots.length = (d :: ds).length ∧
      evs = (d :: ds).map (fun x => done (.StartStream x)) ++ (scheduleEvents d L t ++
        (captureEvents (d :: ds) shots ++ (d :: ds).map (fun x => done (.StopStream x)))) := by
  simp only [shoot, bind_eq_ok] at h
  obtain ⟨_, e1, _, h1, ⟨_, e2, _, h2, ⟨_, e3, e4, h3, h4, rfl⟩, rfl⟩, rfl⟩ := h
  obtain ⟨L, t, ht, -, rfl⟩ := schedule_ok d ds env _ _ h2
  obtain ⟨shots, hl, rfl⟩ := forEach_captureOne_ok _ _ _ _ h3
  rw [forEach_invoke_ok Call.StartStream _ _ _ _ h1, forEach_invoke_ok Call.StopStream _ _ _ _ h4]
  exact ⟨L, t, shots, ht, hl, rfl⟩

/-! ## Negotiation, execute time and the empty session -/

/-- C1. `wait_for_ptp_sync` returns only at the end of a poll in which every
one of the `N` devices was read, exactly one answered `Master` and `N - 1`
answered `Slave`; and one poll passes the test
`!restartSyncCheck && masterFound` exactly when every read returns, exactly
one device reports `Master` and all the others report `Slave` (so never with
zero or with several masters). -/
theorem wait_for_ptp_sync_single_master (devices : List Dev) (env : Env) (n : Nat) :
    (∀ fuel evs, wait_for_ptp_sync devices fuel env n = .ok () evs →
      ∃ before statuses, evs = before ++ pollEvents devices statuses ∧
        statuses.length = devices.length ∧ statuses.count "Master" = 1 ∧
        statuses.count "Slave" = devices.length - 1) ∧
    ((∃ masterFound restartSyncCheck evs,
        checkDevices devices false env n = .ok (masterFound, restartSyncCheck) evs ∧
        (!restartSyncCheck && masterFound) = true) ↔
      (allAnswer env n devices ∧ (reported env n devices).count "Master" = 1 ∧
        ∀ s ∈ reported env n devices, s = "Master" ∨ s = "Slave")) := by
  refine ⟨fun fuel evs h => wait_for_ptp_sync_ok devices fuel env n evs h, ?_, ?_⟩
  · rintro ⟨mf, rs, evs, h, ht⟩
    cases rs with
    | true => simp at ht
    | false =>
      simp only [Bool.not_false, Bool.true_and] at ht
      subst ht
      obtain ⟨-, h2, h3, h4⟩ := checkDevices_ok devices false env n true evs h
      exact ⟨h2, by simpa using h4, h3⟩
  · rintro ⟨h1, h2, h3⟩
    have := checkDevices_complete devices false env n h1 h3 (by simp [h2])
    refine ⟨true, false, pollEvents devices (reported env n devices), ?_, rfl⟩
    simpa [h2] using this

theorem wait_for_ptp_sync_single_master_witness :
    wait_for_ptp_sync [0, 1] 2 envLate 0 = .ok ()
      [⟨ptpStatusRead 0, .returned (.value (.gcstring "Master"))⟩,
       ⟨ptpStatusRead 1, .returned (.value (.gcstring "Master"))⟩,
       done (.sleep_for 1),
       ⟨ptpStatusRead 0, .returned (.value (.gcstring "Master"))⟩,
       ⟨ptpStatusRead 1, .returned (.value (.gcstring "Slave"))⟩] ∧
    ∃ before statuses,
      [⟨ptpStatusRead 0, .returned (.value (.gcstring "Master"))⟩,
       ⟨ptpStatusRead 1, .returned (.value (.gcstring "Master"))⟩,
       done (.sleep_for 1),
       ⟨ptpStatusRead 0, .returned (.value (.gcstring "Master"))⟩,
       ⟨ptpStatusRead 1, .returned (.value (.gcstring "Slave"))⟩] =
        before ++ pollEvents [0, 1] statuses ∧
      statuses.length = [0, 1].length ∧ statuses.count "Master" = 1 ∧
      statuses.count "Slave" = [0, 1].length - 1 :=
  ⟨by rfl, (wait_for_ptp_sync_single_master [0, 1] envLate 0).1 2 _ (by rfl)⟩

/-- Once a poll passes the test, the loop returns: with enough fuel for the
polls before it, `wait_for_ptp_sync` returns at the first such poll. -/
theorem wait_for_ptp_sync_returns (devices : List Dev) (env : Env) (n fuel : Nat)
    (h1 : allAnswer env n devices) (h2 : (reported env n devices).count "Master" = 1)
    (h3 : ∀ s ∈ reported env n devices, s = "Master" ∨ s = "Slave") :
    wait_for_ptp_sync devices (fuel + 1) env n =
      .ok () (pollEvents devices (reported env n devices)) := by
  have := checkDevices_complete devices false env n h1 h3 (by simp [h2])
  rw [wait_for_ptp_sync, bind_run, this]
  simp [h2, pure_run, Res.prepend]

/-- Below `2 ^ 53` every integer is a binary64 value. -/
theorem roundBinary64_small (x : Int) (h : x.natAbs < 2 ^ 53) : roundBinary64 x = x := by
  have hq : quantum 64 x.natAbs = 1 := by
    show quantum (63 + 1) x.natAbs = 1
    rw [quantum, if_pos h]
  simp only [roundBinary64, hq, Nat.div_one, Nat.mod_one]
  simp only [Nat.mul_zero, Nat.lt_irrefl, Nat.zero_lt_one, if_true, Nat.mul_one]
  exact Int.sign_mul_natAbs x

/-- While the latched clock and the deadline stay below `2 ^ 53` in
magnitude, the execute time is the latched clock plus `DELTA_TIME`. -/
theorem executeTimeDouble_small (L : Int) (h1 : -(2 ^ 53) < L) (h2 : L + 1000 < 2 ^ 53) :
    double_to_int64 (executeTimeDouble L) = some (L + DELTA_TIME) := by
  have e1 : roundBinary64 L = L := roundBinary64_small L (by omega)
  have e2 : roundBinary64 (L + 1000) = L + 1000 := roundBinary64_small _ (by omega)
  simp only [executeTimeDouble, DELTA_TIME, e1, e2, double_to_int64]
  rw [if_pos]
  constructor <;> omega

/-- C2. At the latched clock value `2 ^ 53 + 1` the execute time that `shoot`
writes to the broadcast channel is `9007199254741992`, one less than the
latched value plus `DELTA_TIME`: the sum is formed in `double`, whose 53-bit
significand cannot hold the odd latched value. -/
theorem shoot_executeTime_rounded :
    wrap64 (envLatch.int64 2 (.GetNodeMap 0) "PtpDataSetLatchValue") = 2 ^ 53 + 1 ∧
    executeTimesWritten (shoot [0] envLatch 0).events = [9007199254741992] ∧
    (9007199254741992 : Int) ≠ (2 ^ 53 + 1) + DELTA_TIME := by
  decide!

/-- At a clock value of the order of the nanoseconds elapsed since 1970 the
execute time is rounded to a multiple of `256`. -/
theorem executeTimeDouble_epoch :
    executeTimeDouble 1700000000000000123 = 1700000000000001024 := by
  decide

/-- C6. When discovery returns no device, `main` returns `0` and the only
calls it issued are the opening of the system, the update of the device list
and the retrieval of the (empty) list: no creation, preparation, wait,
scheduling, capture or destruction. -/
theorem main_no_devices (fuel : Nat) (env : Env) (h1 : env.raises 0 .OpenSystem = none)
    (h2 : env.raises 1 (.UpdateDevices 1000) = none) (h3 : env.raises 2 .GetDevices = none)
    (h4 : env.infos 2 = []) :
    main fuel env = .ok 0
      [done .OpenSystem, done (.UpdateDevices 1000), ⟨.GetDevices, .returned (.infos [])⟩] := by
  simp [main, main_try, bind_run, OpenSystem, UpdateDevices, GetDevices, invoke, h1, h2, h3, h4,
    Res.prepend, pure_run, done]

theorem main_no_devices_witness :
    envNone.raises 0 .OpenSystem = none ∧ envNone.raises 1 (.UpdateDevices 1000) = none ∧
    envNone.raises 2 .GetDevices = none ∧ envNone.infos 2 = [] ∧
    main 0 envNone = .ok 0
      [done .OpenSystem, done (.UpdateDevices 1000), ⟨.GetDevices, .returned (.infos [])⟩] :=
  ⟨rfl, rfl, rfl, rfl, main_no_devices 0 envNone rfl rfl rfl rfl⟩

theorem wait_for_ptp_sync_returns_witness :
    allAnswer envSync 0 [0, 1] ∧ (reported envSync 0 [0, 1]).count "Master" = 1 ∧
    (∀ s ∈ reported envSync 0 [0, 1], s = "Master" ∨ s = "Slave") ∧
    wait_for_ptp_sync [0, 1] (0 + 1) envSync 0 =
      .ok () (pollEvents [0, 1] (reported envSync 0 [0, 1])) :=
  ⟨⟨rfl, rfl, trivial⟩, by decide, by decide,
    wait_for_ptp_sync_returns [0, 1] envSync 0 0 ⟨rfl, rfl, trivial⟩ (by decide) (by decide)⟩

theorem executeTimeDouble_small_witness :
    -(2 ^ 53) < (5 : Int) ∧ (5 : Int) + 1000 < 2 ^ 53 ∧
    double_to_int64 (executeTimeDouble 5) = some (5 + DELTA_TIME) :=
  ⟨by decide, by decide, executeTimeDouble_small 5 (by decide) (by decide)⟩

/-- With an empty device list `shoot` issues no call at all: `devices.at(0)`
raises `std::out_of_range` right after the (empty) loop over the streams. -/
theorem shoot_empty (env : Env) (n : Nat) : shoot [] env n = .throw .std_exception [] := by
  simp [shoot, bind_run, forEach, pure_run, schedule, at0, raise, Res.prepend]

/-- With an empty device list `wait_for_ptp_sync` never returns: no master is
ever found, and after any number of polls it has only slept. -/
theorem wait_for_ptp_sync_empty (fuel : Nat) :
    ∀ (env : Env) (n : Nat),
      wait_for_ptp_sync [] fuel env n = .outOfFuel (List.replicate fuel (done (.sleep_for 1))) := by
  induction fuel with
  | zero => intro env n; rfl
  | succ k ih =>
    intro env n
    simp [wait_for_ptp_sync, bind_run, checkDevices, pure_run, sleep_for, ih, Res.prepend,
      List.replicate_succ, done]

/-! ## Properties of the polling loop and of the blocks -/

theorem only_checkDevices {p : Call → Prop} (hp : ∀ d, p (ptpStatusRead d)) (devices : List Dev) :
    ∀ mf, Only p (checkDevices devices mf) := by
  induction devices with
  | nil => intro mf; exact only_pure _
  | cons d ds ih =>
    intro mf
    rw [checkDevices]
    refine only_bind (only_invoke _ _ (hp d)) (fun s => ?_)
    split_ifs
    · exact only_pure _
    · exact ih _
    · exact only_pure _
    · exact ih _

theorem only_sleep_for {p : Call → Prop} (s : Nat) (hp : p (.sleep_for s)) :
    Only p (sleep_for s) := by
  intro env n ev hev
  simp [sleep_for, Res.events] at hev
  subst hev
  exact hp

theorem only_wait_for_ptp_sync {p : Call → Prop} (hp : ∀ d, p (ptpStatusRead d))
    (hs : p (.sleep_for 1)) (devices : List Dev) (fuel : Nat) :
    Only p (wait_for_ptp_sync devices fuel) := by
  induction fuel with
  | zero => intro env n ev hev; simp [wait_for_ptp_sync, outOfFuel, Res.events] at hev
  | succ k ih =>
    rw [wait_for_ptp_sync]
    refine only_bind (only_checkDevices hp devices false) (fun r => ?_)
    obtain ⟨mf, rs⟩ := r
    simp only
    split_ifs
    · exact only_pure _
    · exact only_bind (only_sleep_for 1 hs) (fun _ => ih)

theorem tidy_checkDevices (devices : List Dev) : ∀ mf, Tidy (checkDevices devices mf) := by
  induction devices with
  | nil => intro mf; exact tidy_pure _
  | cons d ds ih =>
    intro mf
    rw [checkDevices]
    refine tidy_bind (tidy_invoke _ _ _) (fun s => ?_)
    split_ifs
    · exact tidy_pure _
    · exact ih _
    · exact tidy_pure _
    · exact ih _

theorem tidy_sleep_for (s : Nat) : Tidy (sleep_for s) := by
  intro env n ev hev
  simp at hev
  subst hev
  exact ⟨_, rfl⟩

theorem tidy_wait_for_ptp_sync (devices : List Dev) (fuel : Nat) :
    Tidy (wait_for_ptp_sync devices fuel) := by
  induction fuel with
  | zero => intro env n ev hev; simp at hev
  | succ k ih =>
    rw [wait_for_ptp_sync]
    refine tidy_bind (tidy_checkDevices devices false) (fun r => ?_)
    obtain ⟨mf, rs⟩ := r
    simp only
    split_ifs
    · exact tidy_pure _
    · exact tidy_bind (tidy_sleep_for 1) (fun _ => ih)

theorem forEach_ok_mem {α : Type} (body : α → M Unit) (l : List α) :
    ∀ (env : Env) (n : Nat) (evs : List Event), forEach l body env n = .ok () evs →
      ∀ x ∈ l, ∃ k e, body x env k = .ok () e ∧ ∀ ev ∈ e, ev ∈ evs := by
  induction l with
  | nil => intro env n evs _ x hx; simp at hx
  | cons y ys ih =>
    intro env n evs h x hx
    rw [forEach_cons_eq_ok] at h
    obtain ⟨e1, e2, h1, h2, rfl⟩ := h
    rcases List.mem_cons.1 hx with rfl | hx
    · exact ⟨n, e1, h1, fun ev hev => List.mem_append_left _ hev⟩
    · obtain ⟨k, e, hk, he⟩ := ih _ _ _ h2 x hx
      exact ⟨k, e, hk, fun ev hev => List.mem_append_right _ (he ev hev)⟩

theorem prepareOne_ok_mem (d : Dev) (env : Env) (n : Nat) (evs : List Event)
    (h : prepareOne d env n = .ok () evs) :
    done (.SetNodeValue (.GetNodeMap d) "ActionDeviceKey" (.int64 1)) ∈ evs ∧
    done (.SetNodeValue (.GetNodeMap d) "ActionGroupKey" (.int64 1)) ∈ evs ∧
    done (.SetNodeValue (.GetNodeMap d) "ActionGroupMask" (.int64 1)) ∈ evs ∧
    done (transferStop d) ∈ evs := by
  simp only [prepareOne, bind_eq_ok, GetNodeValue_gcstring, GetNodeValue_double,
    GetNodeValue_bool, SetNodeValue, ExecuteNode, invoke_eq_ok] at h
  simp only [exists_and_left, exists_eq_left, true_and, exists_const, exists_and_right,
    List.length_singleton, and_assoc] at h
  rcases h with ⟨-, -, -, -, -, -, -, -, -, -, -, -, -, -, -, -, -, -, -, -, -, -, -, -, -, rfl⟩
  simp [done, transferStop]

theorem prepareSystem_ok (env : Env) (n : Nat) (evs : List Event)
    (h : prepareSystem env n = .ok () evs) :
    evs = [done (.SetNodeValue .GetTLSystemNodeMap "ActionCommandDeviceKey" (.int64 1)),
      done (.SetNodeValue .GetTLSystemNodeMap "ActionCommandGroupKey" (.int64 1)),
      done (.SetNodeValue .GetTLSystemNodeMap "ActionCommandGroupMask" (.int64 1)),
      done (.SetNodeValue .GetTLSystemNodeMap "ActionCommandTargetIP" (.int64 0xFFFFFFFF))] := by
  simp only [prepareSystem, bind_eq_ok, SetNodeValue, invoke_eq_ok] at h
  simp only [exists_and_left, exists_eq_left, true_and, exists_const, exists_and_right,
    List.length_singleton, and_assoc] at h
  rcases h with ⟨-, -, -, -, rfl⟩
  rfl

theorem sync_and_prep_eq_ok (devices : List Dev) (fuel : Nat) (env : Env) (n : Nat)
    (evs : List Event) (h : sync_and_prep devices fuel env n = .ok () evs) :
    ∃ e1 e2 e3, forEach devices prepareOne env n = .ok () e1 ∧
      prepareSystem env (n + e1.length) = .ok () e2 ∧
      wait_for_ptp_sync devices fuel env (n + e1.length + e2.length) = .ok () e3 ∧
      evs = e1 ++ (e2 ++ e3) := by
  simp only [sync_and_prep, bind_eq_ok] at h
  obtain ⟨_, e1, _, h1, ⟨_, e2, e3, h2, h3, rfl⟩, rfl⟩ := h
  rw [if_pos (by decide)] at h3
  exact ⟨e1, e2, e3, h1, h2, h3, rfl⟩

/-! ## Configured features -/

theorem features_keep (m : NodeMap) (k : String) (v : Value) (evs : List Event) :
    ∀ σ : Features, (∀ ev ∈ evs, ∀ v2, ev.call = .SetNodeValue m k v2 → v2 = v) → σ m k = v →
      features σ evs m k = v := by
  induction evs with
  | nil => intro σ _ h0; exact h0
  | cons ev rest ih =>
    intro σ h h0
    have hrest := ih (setFeature σ ev) (fun e he => h e (List.mem_cons_of_mem _ he))
    apply hrest
    obtain ⟨c, o⟩ := ev
    have hc := h ⟨c, o⟩ (List.mem_cons_self _ _)
    cases c <;> try exact h0
    rename_i m2 k2 v2
    cases o with
    | raised e => exact h0
    | returned r =>
      simp only [setFeature]
      split_ifs with hmk
      · obtain ⟨rfl, rfl⟩ := hmk
        exact hc v2 rfl
      · exact h0

theorem features_set (m : NodeMap) (k : String) (v : Value) (r : Ret) (evs : List Event) :
    ∀ σ : Features, ⟨.SetNodeValue m k v, .returned r⟩ ∈ evs →
      (∀ ev ∈ evs, ∀ v2, ev.call = .SetNodeValue m k v2 → v2 = v) →
      features σ evs m k = v := by
  induction evs with
  | nil => intro σ hm; simp at hm
  | cons ev rest ih =>
    intro σ hm h
    rcases List.mem_cons.1 hm with rfl | hm
    · exact features_keep m k v rest _ (fun e he => h e (List.mem_cons_of_mem _ he))
        (by simp [setFeature])
    · exact ih _ hm (fun e he => h e (List.mem_cons_of_mem _ he))

theorem only_keyWrite_prepareOne (d : Dev) : Only keyWrite (prepareOne d) := by
  unfold prepareOne GetNodeValue_gcstring GetNodeValue_double GetNodeValue_bool SetNodeValue
    ExecuteNode
  repeat (first | exact only_invoke _ _ (by simp [keyWrite]) | apply only_bind | intro _)

theorem only_keyWrite_sync_and_prep (devices : List Dev) (fuel : Nat) :
    Only keyWrite (sync_and_prep devices fuel) := by
  unfold sync_and_prep
  refine only_bind (only_forEach _ _ (fun d _ => only_keyWrite_prepareOne d)) (fun _ => ?_)
  refine only_bind ?_ (fun _ => ?_)
  · unfold prepareSystem SetNodeValue
    repeat (first | exact only_invoke _ _ (by simp [keyWrite]) | apply only_bind | intro _)
  · rw [if_pos (by decide)]
    exact only_wait_for_ptp_sync (by simp [keyWrite, ptpStatusRead]) (by simp [keyWrite]) _ _

/-- C3. After `sync_and_prep` has returned, the device key, group key and
group mask of the broadcast channel equal the corresponding features of
every device of the list, whatever all features held before. -/
theorem sync_and_prep_keys_match (devices : List Dev) (fuel : Nat) (env : Env) (n : Nat)
    (evs : List Event) (init : Features)
    (h : sync_and_prep devices fuel env n = .ok () evs) :
    ∀ d ∈ devices,
      features init evs .GetTLSystemNodeMap "ActionCommandDeviceKey" =
        features init evs (.GetNodeMap d) "ActionDeviceKey" ∧
      features init evs .GetTLSystemNodeMap "ActionCommandGroupKey" =
        features init evs (.GetNodeMap d) "ActionGroupKey" ∧
      features init evs .GetTLSystemNodeMap "ActionCommandGroupMask" =
        features init evs (.GetNodeMap d) "ActionGroupMask" := by
  intro d hd
  have hk : ∀ ev ∈ evs, keyWrite ev.call := by
    intro ev hev
    have := only_keyWrite_sync_and_prep devices fuel env n ev
    rw [h] at this
    exact this hev
  obtain ⟨e1, e2, e3, h1, h2, -, rfl⟩ := sync_and_prep_eq_ok devices fuel env n evs h
  obtain ⟨k, e, hk1, he⟩ := forEach_ok_mem prepareOne devices env n e1 h1 d hd
  obtain ⟨m1, m2, m3, -⟩ := prepareOne_ok_mem d env k e hk1
  have hs := prepareSystem_ok env _ e2 h2
  have key : ∀ (m : NodeMap) (name : String),
      name ∈ ["ActionDeviceKey", "ActionGroupKey", "ActionGroupMask", "ActionCommandDeviceKey",
        "ActionCommandGroupKey", "ActionCommandGroupMask"] →
      done (.SetNodeValue m name (.int64 1)) ∈ e1 ++ (e2 ++ e3) →
      features init (e1 ++ (e2 ++ e3)) m name = .int64 1 := by
    intro m name hname hmem
    exact features_set m name (.int64 1) .unit _ init hmem
      (fun ev hev v2 hc => hk ev hev m name v2 hc hname)
  have dev : ∀ ev ∈ e, ev ∈ e1 ++ (e2 ++ e3) :=
    fun ev hev => List.mem_append_left _ (he ev hev)
  have sys : ∀ ev ∈ e2, ev ∈ e1 ++ (e2 ++ e3) :=
    fun ev hev => List.mem_append_right _ (List.mem_append_left _ hev)
  rw [key (.GetNodeMap d) "ActionDeviceKey" (by simp) (dev _ m1),
    key (.GetNodeMap d) "ActionGroupKey" (by simp) (dev _ m2),
    key (.GetNodeMap d) "ActionGroupMask" (by simp) (dev _ m3),
    key .GetTLSystemNodeMap "ActionCommandDeviceKey" (by simp) (sys _ (by simp [hs])),
    key .GetTLSystemNodeMap "ActionCommandGroupKey" (by simp) (sys _ (by simp [hs])),
    key .GetTLSystemNodeMap "ActionCommandGroupMask" (by simp) (sys _ (by simp [hs]))]
  exact ⟨rfl, rfl, rfl⟩

theorem sync_and_prep_keys_match_witness :
    sync_and_prep [0, 1] 1 envSync 0 = .ok () prepLog ∧
    ∀ d ∈ [0, 1],
      features (fun _ _ => .int64 0) prepLog .GetTLSystemNodeMap "ActionCommandDeviceKey" =
        features (fun _ _ => .int64 0) prepLog (.GetNodeMap d) "ActionDeviceKey" ∧
      features (fun _ _ => .int64 0) prepLog .GetTLSystemNodeMap "ActionCommandGroupKey" =
        features (fun _ _ => .int64 0) prepLog (.GetNodeMap d) "ActionGroupKey" ∧
      features (fun _ _ => .int64 0) prepLog .GetTLSystemNodeMap "ActionCommandGroupMask" =
        features (fun _ _ => .int64 0) prepLog (.GetNodeMap d) "ActionGroupMask" :=
  ⟨by decide!, sync_and_prep_keys_match [0, 1] 1 envSync 0 prepLog (fun _ _ => .int64 0)
    (by decide!)⟩

/-! ## Runs that return -/

theorem tidy_undefinedBehaviour {α : Type} : Tidy (undefinedBehaviour : M α) := by
  intro env n ev hev
  simp at hev

theorem tidy_forEach_invoke (l : List Dev) (c : Dev → Call) :
    Tidy (forEach l (fun x => invoke (c x) (fun _ _ => ()) (fun _ => Ret.unit))) :=
  tidy_forEach _ _ (fun _ _ => tidy_invoke _ _ _)

theorem tidy_schedule (d : Dev) (ds : List Dev) : Tidy (schedule (d :: ds)) := by
  unfold schedule at0
  refine tidy_bind (tidy_pure _) (fun d0 => tidy_bind (tidy_invoke _ _ _)
    (fun _ => tidy_bind (tidy_invoke _ _ _) (fun L => ?_)))
  split
  · exact tidy_undefinedBehaviour
  · exact tidy_bind (tidy_invoke _ _ _) (fun _ => tidy_invoke _ _ _)

theorem tidy_shoot (d : Dev) (ds : List Dev) : Tidy (shoot (d :: ds)) := by
  unfold shoot
  exact tidy_bind (tidy_forEach_invoke _ Call.StartStream) (fun _ => tidy_bind (tidy_schedule d ds)
    (fun _ => tidy_bind (tidy_forEach _ _ (fun x _ => tidy_captureOne x))
      (fun _ => tidy_forEach_invoke _ Call.StopStream)))

theorem tidy_prepareSystem : Tidy prepareSystem := by
  unfold prepareSystem SetNodeValue
  repeat (first | exact tidy_invoke _ _ _ | apply tidy_bind | intro _)

theorem tidy_sync_and_prep (devices : List Dev) (fuel : Nat) :
    Tidy (sync_and_prep devices fuel) := by
  unfold sync_and_prep
  refine tidy_bind (tidy_forEach _ _ (fun x _ => tidy_prepareOne x))
    (fun _ => tidy_bind tidy_prepareSystem (fun _ => ?_))
  rw [if_pos (by decide)]
  exact tidy_wait_for_ptp_sync devices fuel

theorem tidy_createDevices (infos : List DeviceInfo) : Tidy (createDevices infos) := by
  induction infos with
  | nil => exact tidy_pure _
  | cons i is ih =>
    rw [createDevices]
    exact tidy_bind (tidy_invoke _ _ _) (fun _ => tidy_bind ih (fun _ => tidy_pure _))

theorem createDevices_ok (infos : List DeviceInfo) :
    ∀ (env : Env) (n : Nat) (vDevices : List Dev) (evs : List Event),
      createDevices infos env n = .ok vDevices evs →
        vDevices.length = infos.length ∧ created evs = vDevices ∧ destroyed evs = [] := by
  induction infos with
  | nil =>
    intro env n vDevices evs h
    simp only [createDevices, pure_run, Res.ok.injEq] at h
    obtain ⟨rfl, rfl⟩ := h
    exact ⟨rfl, rfl, rfl⟩
  | cons i is ih =>
    intro env n vDevices evs h
    simp only [createDevices, bind_eq_ok, CreateDevice, invoke_eq_ok, pure_run,
      Res.ok.injEq] at h
    obtain ⟨d, _, _, ⟨-, rfl, rfl⟩, ⟨ds, e2, _, h2, ⟨rfl, rfl⟩, rfl⟩, rfl⟩ := h
    obtain ⟨hl, hc, hd⟩ := ih _ _ _ _ h2
    refine ⟨by simp [hl], ?_, ?_⟩
    · simp [created, hc]
    · simp [destroyed, hd]

theorem tidy_main_try (fuel : Nat) : Tidy (main_try fuel) := by
  unfold main_try OpenSystem UpdateDevices GetDevices
  refine tidy_bind (tidy_invoke _ _ _) (fun _ => tidy_bind (tidy_invoke _ _ _)
    (fun _ => tidy_bind (tidy_invoke _ _ _) (fun infos => ?_)))
  split_ifs with h0
  · exact tidy_pure 0
  · intro env n
    refine tidy_bind_run _ _ env n (tidy_createDevices infos env n) ?_
    intro vDevices evs hc
    obtain ⟨hl, -, -⟩ := createDevices_ok infos env n vDevices evs hc
    cases vDevices with
    | nil => exact absurd hl.symm h0
    | cons d ds =>
      exact tidy_bind (tidy_sync_and_prep _ _) (fun _ => tidy_bind (tidy_shoot d ds)
        (fun _ => tidy_bind (tidy_forEach_invoke _ Call.DestroyDevice) (fun _ => tidy_pure 0))) env _

theorem tidy_raised_last {α : Type} (r : Res α) (ht : r.Tidy) (c : Call) (e : Exc)
    (hmem : ⟨c, .raised e⟩ ∈ r.events) :
    ∃ pre, r = .throw e (pre ++ [⟨c, .raised e⟩]) ∧ ∀ ev ∈ pre, ev.returns := by
  have hno : ¬ (Event.returns ⟨c, .raised e⟩) := by rintro ⟨r, hr⟩; cases hr
  cases r with
  | throw e2 evs =>
    obtain ⟨pre, c2, rfl, hpre⟩ := ht
    rcases List.mem_append.1 hmem with h | h
    · exact absurd (hpre _ h) hno
    · simp only [List.mem_singleton, Event.mk.injEq, Outcome.raised.injEq] at h
      obtain ⟨rfl, rfl⟩ := h
      exact ⟨pre, rfl, hpre⟩
  | _ => exact absurd (ht _ hmem) hno

theorem main_try_ok_code (fuel : Nat) (env : Env) (n : Nat) (code : Int) (evs : List Event)
    (h : main_try fuel env n = .ok code evs) : code = 0 := by
  simp only [main_try, bind_eq_ok] at h
  obtain ⟨_, _, _, -, ⟨_, _, _, -, ⟨infos, _, _, -, h2, -⟩, -⟩, -⟩ := h
  split_ifs at h2
  · simp only [pure_run, Res.ok.injEq] at h2
    exact h2.1.symm
  · simp only [bind_eq_ok, pure_run, Res.ok.injEq] at h2
    obtain ⟨_, _, _, -, ⟨_, _, _, -, ⟨_, _, _, -, ⟨_, _, _, -, ⟨h3, -⟩, -⟩, -⟩, -⟩, -⟩ := h2
    exact h3.symm

theorem main_cases (fuel : Nat) (env : Env) (code : Int) (evs : List Event)
    (h : main fuel env = .ok code evs) :
    (code = 0 ∧ main_try fuel env 0 = .ok 0 evs) ∨
      (code = -1 ∧ ∃ e, main_try fuel env 0 = .throw e evs) := by
  unfold main at h
  cases hm : main_try fuel env 0 with
  | ok c es =>
    rw [hm] at h
    simp only [Res.ok.injEq] at h
    obtain ⟨rfl, rfl⟩ := h
    have := main_try_ok_code fuel env 0 _ _ hm
    subst this
    exact Or.inl ⟨rfl, rfl⟩
  | throw e es =>
    rw [hm] at h
    cases e <;> simp only [Res.ok.injEq] at h <;> obtain ⟨rfl, rfl⟩ := h <;>
      exact Or.inr ⟨rfl, _, rfl⟩
  | outOfFuel es => rw [hm] at h; simp at h
  | undefined es => rw [hm] at h; simp at h

theorem main_events (fuel : Nat) (env : Env) :
    (main fuel env).events = (main_try fuel env 0).events := by
  unfold main
  cases hm : main_try fuel env 0 with
  | throw e2 es => cases e2 <;> rfl
  | _ => rfl

/-- C5 (amended). A retrieval that raises ends the batch: when `GetImage`
raises for a device, that call is the last one `shoot` issues (so no
`TransferStart` and no `GetImage` follows for any later device), `shoot` is
left by that exception, and `main` returns `-1` right after that call. -/
theorem retrieval_timeout_aborts (d : Dev) (e : Exc) :
    (∀ devices env n, ⟨.GetImage d 3000, .raised e⟩ ∈ (shoot devices env n).events →
      ∃ pre, shoot devices env n = .throw e (pre ++ [⟨.GetImage d 3000, .raised e⟩])) ∧
    (∀ fuel env, ⟨.GetImage d 3000, .raised e⟩ ∈ (main fuel env).events →
      ∃ pre, main fuel env = .ok (-1) (pre ++ [⟨.GetImage d 3000, .raised e⟩])) := by
  constructor
  · intro devices env n hmem
    cases devices with
    | nil => simp [shoot, bind_run, forEach, pure_run, schedule, at0, raise, Res.prepend,
        Res.events] at hmem
    | cons x xs =>
      obtain ⟨pre, h, -⟩ := tidy_raised_last _ (tidy_shoot x xs env n) _ _ hmem
      exact ⟨pre, h⟩
  · intro fuel env hmem
    rw [main_events] at hmem
    obtain ⟨pre, h, -⟩ := tidy_raised_last _ (tidy_main_try fuel env 0) _ _ hmem
    refine ⟨pre, ?_⟩
    unfold main
    rw [h]
    cases e <;> rfl

theorem retrieval_timeout_aborts_witness :
    ⟨.GetImage 0 3000, .raised .GenericException⟩ ∈ (shoot [0, 1] envTimeout 0).events ∧
    ∃ pre, shoot [0, 1] envTimeout 0 =
      .throw .GenericException (pre ++ [⟨.GetImage 0 3000, .raised .GenericException⟩]) :=
  ⟨by decide!, (retrieval_timeout_aborts 0 .GenericException).1 [0, 1] envTimeout 0 (by decide!)⟩

/-- C5 as stated fails: with cameras `0` and `1`, when `GetImage` raises for
camera `0`, `shoot` issues neither `TransferStart` nor `GetImage` for camera
`1`. -/
theorem timeout_skips_later_devices :
    ⟨.GetImage 0 3000, .raised .GenericException⟩ ∈ (shoot [0, 1] envTimeout 0).events ∧
    ∀ ev ∈ (shoot [0, 1] envTimeout 0).events,
      ev.call ≠ transferStart 1 ∧ ev.call ≠ .GetImage 1 3000 := by
  decide!

/-! ## Creation and destruction of the devices -/

theorem created_append (a b : List Event) : created (a ++ b) = created a ++ created b := by
  induction a with
  | nil => rfl
  | cons ev rest ih =>
    rcases ev with ⟨c, (e | r)⟩ <;> cases c <;> (try cases r) <;> simp [created, ih]

theorem destroyed_append (a b : List Event) :
    destroyed (a ++ b) = destroyed a ++ destroyed b := by
  induction a with
  | nil => rfl
  | cons ev rest ih =>
    rcases ev with ⟨c, (e | r)⟩ <;> cases c <;> simp [destroyed, ih]

theorem no_lifecycle (evs : List Event) (h : ∀ ev ∈ evs, notLifecycle ev.call) :
    created evs = [] ∧ destroyed evs = [] := by
  induction evs with
  | nil => exact ⟨rfl, rfl⟩
  | cons ev rest ih =>
    have h1 := h ev (List.mem_cons_self _ _)
    obtain ⟨i1, i2⟩ := ih (fun e he => h e (List.mem_cons_of_mem _ he))
    rcases ev with ⟨c, (e | r)⟩ <;> cases c <;>
      first
        | exact False.elim h1
        | simp [created, destroyed, i1, i2]

theorem destroyed_map (l : List Dev) :
    created (l.map (fun x => done (.DestroyDevice x))) = [] ∧
      destroyed (l.map (fun x => done (.DestroyDevice x))) = l := by
  induction l with
  | nil => exact ⟨rfl, rfl⟩
  | cons x xs ih =>
    simp only [done] at ih ⊢
    simp [created, destroyed, ih.1, ih.2]

theorem only_raise {α : Type} {p : Call → Prop} (e : Exc) : Only p (raise e : M α) := by
  intro env n ev hev
  simp [raise, Res.events] at hev

theorem only_undefinedBehaviour {α : Type} {p : Call → Prop} :
    Only p (undefinedBehaviour : M α) := by
  intro env n ev hev
  simp [undefinedBehaviour, Res.events] at hev

theorem only_notLifecycle_captureOne (d : Dev) : Only notLifecycle (captureOne d) := by
  unfold captureOne SaveImagePNG SaveImageRAW GetNodeValue_gcstring ExecuteNode GetImage
    GetTimestamp GetPixelFormatName ImageFactory_Copy ImageParams ImageWriter SetPng SetRaw
    write ImageFactory_Destroy RequeueBuffer
  repeat (first | exact only_invoke _ _ (by simp [notLifecycle]) | apply only_bind | intro _)

theorem only_notLifecycle_shoot (devices : List Dev) : Only notLifecycle (shoot devices) := by
  unfold shoot
  refine only_bind (only_forEach _ _ (fun d _ => only_invoke _ _ (by simp [notLifecycle])))
    (fun _ => only_bind ?_ (fun _ => only_bind
      (only_forEach _ _ (fun d _ => only_notLifecycle_captureOne d))
      (fun _ => only_forEach _ _ (fun d _ => only_invoke _ _ (by simp [notLifecycle])))))
  unfold schedule
  refine only_bind ?_ (fun d0 => only_bind (only_invoke _ _ (by simp [notLifecycle]))
    (fun _ => only_bind (only_invoke _ _ (by simp [notLifecycle])) (fun L => ?_)))
  · cases devices with
    | nil => exact only_raise _
    | cons d ds => exact only_pure _
  · split
    · exact only_undefinedBehaviour
    · exact only_bind (only_invoke _ _ (by simp [notLifecycle]))
        (fun _ => only_invoke _ _ (by simp [notLifecycle]))

theorem only_notLifecycle_sync_and_prep (devices : List Dev) (fuel : Nat) :
    Only notLifecycle (sync_and_prep devices fuel) := by
  unfold sync_and_prep
  refine only_bind (only_forEach _ _ (fun d _ => ?_)) (fun _ => only_bind ?_ (fun _ => ?_))
  · unfold prepareOne GetNodeValue_gcstring GetNodeValue_double GetNodeValue_bool SetNodeValue
      ExecuteNode
    repeat (first | exact only_invoke _ _ (by simp [notLifecycle]) | apply only_bind | intro _)
  · unfold prepareSystem SetNodeValue
    repeat (first | exact only_invoke _ _ (by simp [notLifecycle]) | apply only_bind | intro _)
  · rw [if_pos (by decide)]
    exact only_wait_for_ptp_sync (by simp [notLifecycle, ptpStatusRead])
      (by simp [notLifecycle]) _ _

theorem only_of_ok {α : Type} {p : Call → Prop} {m : M α} (h : Only p m) {env : Env} {n : Nat}
    {a : α} {evs : List Event} (hr : m env n = .ok a evs) : ∀ ev ∈ evs, p ev.call := by
  intro ev hev
  have := h env n ev
  rw [hr] at this
  exact this hev

/-- C8 (amended). When no call raised, so that `main` returns `0`, the
handles given to `DestroyDevice` are exactly the handles that `CreateDevice`
gave back, in the same order and each once for every creation, and one
device was created for every discovered device info. -/
theorem main_destroys_created (fuel : Nat) (env : Env) (evs : List Event)
    (h : main fuel env = .ok 0 evs) :
    destroyed evs = created evs ∧
      ∃ infos, ⟨.GetDevices, .returned (.infos infos)⟩ ∈ evs ∧
        (created evs).length = infos.length := by
  rcases main_cases fuel env 0 evs h with ⟨-, hm⟩ | ⟨h0, -⟩
  swap
  · exact absurd h0 (by decide)
  simp only [main_try, bind_eq_ok, OpenSystem, UpdateDevices, GetDevices, invoke_eq_ok] at hm
  obtain ⟨_, _, _, ⟨-, -, rfl⟩, ⟨_, _, _, ⟨-, -, rfl⟩, ⟨infos, _, e, ⟨-, rfl, rfl⟩, h2, rfl⟩,
    rfl⟩, rfl⟩ := hm
  simp only [List.length_singleton, Nat.zero_add, Nat.reduceAdd] at h2 ⊢
  generalize env.infos 2 = infos at h2 ⊢
  have key : destroyed e = created e ∧ (created e).length = infos.length := by
    split_ifs at h2 with h0
    · simp only [pure_run, Res.ok.injEq, true_and] at h2
      subst h2
      simp only [List.length_eq_zero] at h0
      simp [created, destroyed, h0]
    · simp only [bind_eq_ok, pure_run, Res.ok.injEq, true_and] at h2
      obtain ⟨vD, ce, _, hc, ⟨_, pe, _, hp, ⟨_, se, _, hs, ⟨_, de, _, hd, rfl, rfl⟩, rfl⟩,
        rfl⟩, rfl⟩ := h2
      obtain ⟨hl, c1, d1⟩ := createDevices_ok _ _ _ _ _ hc
      obtain ⟨c2, d2⟩ := no_lifecycle pe (only_of_ok (only_notLifecycle_sync_and_prep _ _) hp)
      obtain ⟨c3, d3⟩ := no_lifecycle se (only_of_ok (only_notLifecycle_shoot _) hs)
      have hde := forEach_invoke_ok Call.DestroyDevice _ _ _ _ hd
      obtain ⟨c4, d4⟩ := destroyed_map vD
      rw [← hde] at c4 d4
      simp [created_append, destroyed_append, c1, c2, c3, c4, d1, d2, d3, d4, hl]
  refine ⟨?_, infos, by simp, ?_⟩
  · simpa [created, destroyed, created_append, destroyed_append] using key.1
  · simpa [created, created_append] using key.2

theorem main_destroys_created_witness :
    main 1 envSync = .ok 0 mainLog ∧
    (destroyed mainLog = created mainLog ∧
      ∃ infos, ⟨.GetDevices, .returned (.infos infos)⟩ ∈ mainLog ∧
        (created mainLog).length = infos.length) :=
  ⟨by decide!, main_destroys_created 1 envSync mainLog (by decide!)⟩

/-- C8 as stated fails: under `envTimeout` the session creates the devices
`0` and `1`, `GetImage` raises during the capture, and `main` returns `-1`
without having destroyed any device. -/
theorem timeout_leaves_devices_undestroyed :
    main 1 envTimeout = .ok (-1) timeoutLog ∧ created timeoutLog = [0, 1] ∧
    destroyed timeoutLog = [] ∧ ∀ ev ∈ timeoutLog, ∀ d ∈ [0, 1], ev.call ≠ .DestroyDevice d := by
  decide!

/-! ## Order of the calls of `shoot` -/

/-- C9. When `shoot` returns, its log ends with one block per device, in
list order, followed by the `StopStream` calls.  The block of a device is:
the read of its serial number, `TransferStart`, one `GetImage` with the
3000 ms timeout, `TransferStop`, the timestamp read, the PNG file and then
the RAW file written from that buffer under `FILE_NAME` followed by the
serial number, and last one `RequeueBuffer` of that same buffer.  Nothing
before the blocks touches a transfer gate, a buffer or a file. -/
theorem shoot_capture_sequence (devices : List Dev) (env : Env) (n : Nat) (evs : List Event)
    (h : shoot devices env n = .ok () evs) :
    ∃ (before : List Event) (shots : List Shot), shots.length = devices.length ∧
      evs = before ++ (captureEvents devices shots ++
        devices.map (fun x => done (.StopStream x))) ∧
      ∀ ev ∈ before, ¬ isCapture ev.call := by
  cases devices with
  | nil => simp [shoot, bind_run, forEach, pure_run, schedule, at0, raise, Res.prepend] at h
  | cons d ds =>
    obtain ⟨L, t, shots, -, hl, rfl⟩ := shoot_ok d ds env n evs h
    refine ⟨_, shots, hl, (List.append_assoc _ _ _).symm, ?_⟩
    intro ev hev
    rcases List.mem_append.1 hev with h1 | h1
    · obtain ⟨x, -, rfl⟩ := List.mem_map.1 h1
      simp [done, isCapture]
    · simp only [scheduleEvents, done, List.mem_cons, List.mem_singleton, List.not_mem_nil,
        or_false] at h1
      rcases h1 with rfl | rfl | rfl | rfl <;> simp [isCapture]

theorem shoot_capture_sequence_witness :
    shoot [0, 1] envSync 0 = .ok () shootLog ∧
    ∃ (before : List Event) (shots : List Shot), shots.length = [0, 1].length ∧
      shootLog = before ++ (captureEvents [0, 1] shots ++
        [0, 1].map (fun x => done (.StopStream x))) ∧
      ∀ ev ∈ before, ¬ isCapture ev.call :=
  ⟨by decide!, shoot_capture_sequence [0, 1] envSync 0 shootLog (by decide!)⟩

theorem captureEvents_not_schedule (devices : List Dev) :
    ∀ shots : List Shot, ∀ ev ∈ captureEvents devices shots, isSchedule ev.call = false := by
  induction devices with
  | nil => intro shots ev hev; simp [captureEvents] at hev
  | cons d ds ih =>
    intro shots ev hev
    cases shots with
    | nil => simp [captureEvents] at hev
    | cons s ss =>
      rw [captureEvents] at hev
      rcases List.mem_append.1 hev with h1 | h1
      · simp only [captureBlock, done, List.mem_cons, List.mem_singleton, List.not_mem_nil,
          or_false] at h1
        rcases h1 with rfl | rfl | rfl | rfl | rfl | rfl | rfl | rfl | rfl | rfl | rfl | rfl |
          rfl | rfl | rfl | rfl | rfl <;> simp [isSchedule, transferStart, transferStop]
      · exact ih ss ev h1

theorem only_notSchedule_captureOne (d : Dev) :
    Only (fun c => isSchedule c = false) (captureOne d) := by
  unfold captureOne SaveImagePNG SaveImageRAW GetNodeValue_gcstring ExecuteNode GetImage
    GetTimestamp GetPixelFormatName ImageFactory_Copy ImageParams ImageWriter SetPng SetRaw
    write ImageFactory_Destroy RequeueBuffer
  repeat (first | exact only_invoke _ _ (by simp [isSchedule]) | apply only_bind | intro _)

theorem filter_eq_nil_of_only (evs : List Event)
    (h : ∀ ev ∈ evs, isSchedule ev.call = false) :
    (evs.map Event.call).filter isSchedule = [] := by
  rw [List.filter_eq_nil_iff]
  intro c hc
  obtain ⟨ev, hev, rfl⟩ := List.mem_map.1 hc
  simp [h ev hev]

theorem schedule_calls (d : Dev) (ds : List Dev) (env : Env) (n : Nat) :
    ∃ t, ((schedule (d :: ds) env n).events.map Event.call).filter isSchedule <+:
      scheduleCalls d t := by
  simp only [schedule, at0, pure_bind_run, ExecuteNode, GetNodeValue_int64, SetNodeValue,
    events_invoke_bind]
  split
  · exact ⟨0, by simp [isSchedule, scheduleCalls]⟩
  split
  · exact ⟨0, by simp [isSchedule, scheduleCalls]⟩
  cases double_to_int64 (executeTimeDouble
      (wrap64 (env.int64 (n + 1) (.GetNodeMap d) "PtpDataSetLatchValue"))) with
  | none => exact ⟨0, by simp [isSchedule, scheduleCalls, undefinedBehaviour, Res.events]⟩
  | some t =>
    refine ⟨t, ?_⟩
    simp only [events_invoke_bind, events_invoke]
    split
    · simp [isSchedule, scheduleCalls]
    split <;> simp [isSchedule, scheduleCalls]

/-- C10. For a non-empty device list, the scheduling calls that `shoot`
issues are, in every run, an initial part of: the latch on the first device,
the read of the latched value on the first device, the write of the execute
time and the fire command on the broadcast channel; none is issued twice.
When `shoot` returns, its log is the `StartStream` of every device, then
exactly these four calls, then the rest, which holds every `TransferStart`
and no further scheduling call. -/
theorem shoot_schedules_once (d : Dev) (ds : List Dev) (env : Env) (n : Nat) :
    (∃ t, ((shoot (d :: ds) env n).events.map Event.call).filter isSchedule <+:
      scheduleCalls d t) ∧
    (∀ evs, shoot (d :: ds) env n = .ok () evs →
      ∃ L t rest, double_to_int64 (executeTimeDouble L) = some t ∧
        evs = (d :: ds).map (fun x => done (.StartStream x)) ++ (scheduleEvents d L t ++ rest) ∧
        (∀ ev ∈ rest, isSchedule ev.call = false) ∧
        ∀ ev ∈ (d :: ds).map (fun x => done (.StartStream x)) ++ scheduleEvents d L t,
          ∀ x, ev.call ≠ transferStart x) := by
  constructor
  · have hA : Only (fun c => isSchedule c = false) (forEach (d :: ds) StartStream) :=
      only_forEach _ _ (fun x _ => only_invoke _ _ (by simp [isSchedule]))
    have hC : Only (fun c => isSchedule c = false)
        (forEach (d :: ds) captureOne >>= fun _ => forEach (d :: ds) StopStream) :=
      only_bind (only_forEach _ _ (fun x _ => only_notSchedule_captureOne x))
        (fun _ => only_forEach _ _ (fun x _ => only_invoke _ _ (by simp [isSchedule])))
    unfold shoot
    rw [events_bind, List.map_append, List.filter_append,
      filter_eq_nil_of_only _ (hA env n), List.nil_append]
    cases h1 : forEach (d :: ds) StartStream env n with
    | ok a e1 =>
      simp only
      rw [events_bind, List.map_append, List.filter_append]
      obtain ⟨t, ht⟩ := schedule_calls d ds env (n + e1.length)
      refine ⟨t, ?_⟩
      cases h2 : schedule (d :: ds) env (n + e1.length) with
      | ok b e2 =>
        simp only
        rw [filter_eq_nil_of_only _ (hC env _), List.append_nil]
        rw [h2] at ht
        exact ht
      | throw e e2 => rw [h2] at ht; simpa using ht
      | outOfFuel e2 => rw [h2] at ht; simpa using ht
      | undefined e2 => rw [h2] at ht; simpa using ht
    | throw e e1 => exact ⟨0, by simp⟩
    | outOfFuel e1 => exact ⟨0, by simp⟩
    | undefined e1 => exact ⟨0, by simp⟩
  · intro evs h
    obtain ⟨L, t, shots, ht, -, rfl⟩ := shoot_ok d ds env n evs h
    refine ⟨L, t, _, ht, rfl, ?_, ?_⟩
    · intro ev hev
      rcases List.mem_append.1 hev with h1 | h1
      · exact captureEvents_not_schedule _ _ ev h1
      · obtain ⟨x, -, rfl⟩ := List.mem_map.1 h1
        simp [done, isSchedule]
    · intro ev hev x
      rcases List.mem_append.1 hev with h1 | h1
      · obtain ⟨y, -, rfl⟩ := List.mem_map.1 h1
        simp [done, transferStart]
      · simp only [scheduleEvents, done, List.mem_cons, List.mem_singleton, List.not_mem_nil,
          or_false] at h1
        rcases h1 with rfl | rfl | rfl | rfl <;> simp [transferStart]

theorem shoot_schedules_once_witness :
    shoot [0, 1] envSync 0 = .ok () shootLog ∧
    ∃ L t rest, double_to_int64 (executeTimeDouble L) = some t ∧
      shootLog = [0, 1].map (fun x => done (.StartStream x)) ++ (scheduleEvents 0 L t ++ rest) ∧
      (∀ ev ∈ rest, isSchedule ev.call = false) ∧
      ∀ ev ∈ [0, 1].map (fun x => done (.StartStream x)) ++ scheduleEvents 0 L t,
        ∀ x, ev.call ≠ transferStart x :=
  ⟨by decide!, (shoot_schedules_once 0 [1] envSync 0).2 shootLog (by decide!)⟩

/-! ## Transfer gates -/

theorem gates_append (g : Dev → Bool) (a b : List Event) :
    gates g (a ++ b) = gates (gates g a) b := by
  simp [gates, List.foldl_append]

theorem gateStep_noGate (g : Dev → Bool) (ev : Event) (h : noGate ev.call) :
    gateStep g ev = g := by
  obtain ⟨c, o⟩ := ev
  cases c <;> try rfl
  rename_i m name
  cases m <;> try rfl
  rename_i d
  have h1 := (h d).1
  have h2 := (h d).2
  simp only [transferStart, transferStop, ne_eq, Call.ExecuteNode.injEq, true_and] at h1 h2
  simp [gateStep, h1, h2]

theorem gates_noGate (evs : List Event) :
    ∀ g : Dev → Bool, (∀ ev ∈ evs, noGate ev.call) → gates g evs = g := by
  induction evs with
  | nil => intro g _; rfl
  | cons ev rest ih =>
    intro g h
    show gates (gateStep g ev) rest = g
    rw [gateStep_noGate g ev (h ev (List.mem_cons_self _ _))]
    exact ih g (fun e he => h e (List.mem_cons_of_mem _ he))

theorem gateStep_closed (g : Dev → Bool) (ev : Event) (d : Dev) (h : noStart ev.call)
    (hd : g d = false) : gateStep g ev d = false := by
  obtain ⟨c, o⟩ := ev
  cases c <;> try exact hd
  rename_i m name
  cases m <;> try exact hd
  rename_i a
  have h1 := h a
  simp only [transferStart, ne_eq, Call.ExecuteNode.injEq, true_and] at h1
  simp only [gateStep, h1, if_false]
  split_ifs <;> simp [hd]

theorem gates_closed_keep (evs : List Event) (d : Dev) :
    ∀ g : Dev → Bool, (∀ ev ∈ evs, noStart ev.call) → g d = false → gates g evs d = false := by
  induction evs with
  | nil => intro g _ hd; exact hd
  | cons ev rest ih =>
    intro g h hd
    exact ih _ (fun e he => h e (List.mem_cons_of_mem _ he))
      (gateStep_closed g ev d (h ev (List.mem_cons_self _ _)) hd)

theorem gates_closed_set (evs : List Event) (d : Dev) :
    ∀ g : Dev → Bool, done (transferStop d) ∈ evs → (∀ ev ∈ evs, noStart ev.call) →
      gates g evs d = false := by
  induction evs with
  | nil => intro g hm; simp at hm
  | cons ev rest ih =>
    intro g hm h
    rcases List.mem_cons.1 hm with rfl | hm
    · exact gates_closed_keep rest d _ (fun e he => h e (List.mem_cons_of_mem _ he))
        (by simp [gateStep, done, transferStop])
    · exact ih _ hm (fun e he => h e (List.mem_cons_of_mem _ he))

theorem only_noStart_sync_and_prep (devices : List Dev) (fuel : Nat) :
    Only noStart (sync_and_prep devices fuel) := by
  unfold sync_and_prep
  refine only_bind (only_forEach _ _ (fun d _ => ?_)) (fun _ => only_bind ?_ (fun _ => ?_))
  · unfold prepareOne GetNodeValue_gcstring GetNodeValue_double GetNodeValue_bool SetNodeValue
      ExecuteNode
    repeat (first
      | exact only_invoke _ _ (by simp [noStart, transferStart])
      | apply only_bind
      | intro _)
  · unfold prepareSystem SetNodeValue
    repeat (first
      | exact only_invoke _ _ (by simp [noStart, transferStart])
      | apply only_bind
      | intro _)
  · rw [if_pos (by decide)]
    exact only_wait_for_ptp_sync (by simp [noStart, transferStart, ptpStatusRead])
      (by simp [noStart, transferStart]) _ _

theorem sync_and_prep_closes (devices : List Dev) (fuel : Nat) (env : Env) (n : Nat)
    (evs : List Event) (g : Dev → Bool) (h : sync_and_prep devices fuel env n = .ok () evs) :
    Closed devices (gates g evs) := by
  intro d hd
  have hs := only_of_ok (only_noStart_sync_and_prep devices fuel) h
  obtain ⟨e1, e2, e3, h1, -, -, rfl⟩ := sync_and_prep_eq_ok devices fuel env n evs h
  obtain ⟨k, e, hk, he⟩ := forEach_ok_mem prepareOne devices env n e1 h1 d hd
  obtain ⟨-, -, -, m4⟩ := prepareOne_ok_mem d env k e hk
  exact gates_closed_set _ d g (List.mem_append_left _ (he _ m4)) hs

theorem prefix_append_cases {α : Type} (p a b : List α) (h : p <+: a ++ b) :
    p <+: a ∨ ∃ q, p = a ++ q ∧ q <+: b := by
  rcases List.prefix_or_prefix_of_prefix h (List.prefix_append a b) with h1 | h1
  · exact Or.inl h1
  · obtain ⟨q, rfl⟩ := h1
    exact Or.inr ⟨q, rfl, (List.prefix_append_right_inj a).1 h⟩

theorem holds_bind {α β : Type} {devices : List Dev} {P R Q : (Dev → Bool) → Prop} {m : M α}
    {f : α → M β} (hm : Holds devices P R m) (hf : ∀ a, Holds devices R Q (f a)) :
    Holds devices P Q (m >>= f) := by
  intro env n g hP
  obtain ⟨h1, h2⟩ := hm env n g hP
  constructor
  · intro p hp
    rw [events_bind] at hp
    rcases prefix_append_cases _ _ _ hp with hp | ⟨q, rfl, hq⟩
    · exact h1 p hp
    · cases hr : m env n with
      | ok a e1 =>
        rw [hr] at hq
        simp only [hr, Res.events] at *
        rw [gates_append]
        exact (hf a env _ _ (h2 a e1 rfl)).1 q hq
      | _ =>
        rw [hr] at hq
        simp only [List.prefix_nil] at hq
        subst hq
        rw [List.append_nil]
        have := h1 (m env n).events (List.prefix_refl _)
        rw [hr] at this
        exact this
  · intro b evs hb
    rw [bind_eq_ok] at hb
    obtain ⟨a, e1, e2, ha, hb, rfl⟩ := hb
    rw [gates_append]
    exact (hf a env _ _ (h2 a e1 ha)).2 b e2 hb

theorem holds_neutral {α : Type} {devices : List Dev} {P : (Dev → Bool) → Prop} {m : M α}
    (hP : ∀ g, P g → AtMostOneOpen devices g) (hm : Only noGate m) : Holds devices P P m := by
  intro env n g hg
  constructor
  · intro p hp
    rw [gates_noGate p g (fun ev hev => hm env n ev (hp.subset hev))]
    exact hP g hg
  · intro a evs h
    rw [gates_noGate evs g (only_of_ok hm h)]
    exact hg

theorem holds_invoke {α : Type} {devices : List Dev} {P Q : (Dev → Bool) → Prop} (c : Call)
    (val : Env → Nat → α) (ret : α → Ret)
    (h : ∀ g, P g → AtMostOneOpen devices g ∧
      (∀ o, AtMostOneOpen devices (gateStep g ⟨c, o⟩)) ∧
      ∀ a, Q (gateStep g ⟨c, .returned (ret a)⟩)) :
    Holds devices P Q (invoke c val ret) := by
  intro env n g hg
  obtain ⟨h1, h2, h3⟩ := h g hg
  constructor
  · intro p hp
    rw [events_invoke] at hp
    have : ∀ o, p <+: [(⟨c, o⟩ : Event)] → AtMostOneOpen devices (gates g p) := by
      intro o hpo
      rcases List.prefix_cons_iff.1 hpo with rfl | ⟨q, rfl, hq⟩
      · exact h1
      · simp only [List.prefix_nil] at hq
        subst hq
        exact h2 o
    split at hp
    · exact this _ hp
    · exact this _ hp
  · intro a evs hev
    rw [invoke_eq_ok] at hev
    obtain ⟨-, -, rfl⟩ := hev
    exact h3 _

theorem holds_forEach {α : Type} {devices : List Dev} {P : (Dev → Bool) → Prop}
    (hP : ∀ g, P g → AtMostOneOpen devices g) (l : List α) (body : α → M Unit)
    (h : ∀ x ∈ l, Holds devices P P (body x)) : Holds devices P P (forEach l body) := by
  induction l with
  | nil =>
    intro env n g hg
    constructor
    · intro p hp
      simp only [forEach, pure_run, Res.events, List.prefix_nil] at hp
      subst hp
      exact hP g hg
    · intro a evs hev
      simp only [forEach, pure_run, Res.ok.injEq, true_and] at hev
      subst hev
      exact hg
  | cons x xs ih =>
    rw [forEach]
    exact holds_bind (h x (List.mem_cons_self _ _))
      (fun _ => ih (fun y hy => h y (List.mem_cons_of_mem _ hy)))

theorem closed_atMostOne (devices : List Dev) (g : Dev → Bool) (h : Closed devices g) :
    AtMostOneOpen devices g := by
  intro a ha b _ hga
  rw [h a ha] at hga
  cases hga

theorem onlyOpen_atMostOne (devices : List Dev) (d : Dev) (g : Dev → Bool)
    (h : OnlyOpen devices d g) : AtMostOneOpen devices g := by
  intro a ha b hb hga hgb
  by_cases h1 : a = d
  · by_cases h2 : b = d
    · rw [h1, h2]
    · rw [h b hb h2] at hgb; cases hgb
  · rw [h a ha h1] at hga; cases hga

theorem only_noGate_tail (pDevice : Dev) (pImage : Image) (serial : String) :
    Only noGate (do
      let _ ← GetTimestamp pImage
      SaveImagePNG pImage (FILE_NAME ++ serial ++ ".png")
      SaveImageRAW pImage (FILE_NAME ++ serial ++ ".raw")
      RequeueBuffer pDevice pImage) := by
  unfold SaveImagePNG SaveImageRAW GetTimestamp GetPixelFormatName ImageFactory_Copy
    ImageParams ImageWriter SetPng SetRaw write ImageFactory_Destroy RequeueBuffer
  repeat (first
    | exact only_invoke _ _ (by simp [noGate, transferStart, transferStop])
    | apply only_bind
    | intro _)

theorem holds_captureOne (devices : List Dev) (d : Dev) :
    Holds devices (Closed devices) (Closed devices) (captureOne d) := by
  unfold captureOne
  refine holds_bind (R := Closed devices) ?_ (fun serial => holds_bind
    (R := OnlyOpen devices d) ?_ (fun _ => holds_bind (R := OnlyOpen devices d) ?_
      (fun img => holds_bind (R := Closed devices) ?_ (fun _ => ?_))))
  · exact holds_neutral (closed_atMostOne devices)
      (only_invoke _ _ (by simp [noGate, transferStart, transferStop]))
  · refine holds_invoke _ _ _ (fun g hg => ⟨closed_atMostOne devices g hg, fun o => ?_, fun r => ?_⟩)
    · apply onlyOpen_atMostOne devices d
      intro a ha hne
      simp [gateStep, hne, hg a ha]
    · intro a ha hne
      simp [gateStep, hne, hg a ha]
  · exact holds_neutral (onlyOpen_atMostOne devices d)
      (only_invoke _ _ (by simp [noGate, transferStart, transferStop]))
  · refine holds_invoke _ _ _ (fun g hg => ⟨onlyOpen_atMostOne devices d g hg, fun o => ?_,
      fun r => ?_⟩)
    · apply onlyOpen_atMostOne devices d
      intro a ha hne
      simp only [gateStep]
      split_ifs <;> simp [hne, hg a ha hne]
    · intro a ha
      by_cases hne : a = d
      · simp [gateStep, hne]
      · simp [gateStep, hne, hg a ha hne]
  · exact holds_neutral (closed_atMostOne devices) (only_noGate_tail d img serial)

theorem only_noGate_schedule (devices : List Dev) : Only noGate (schedule devices) := by
  unfold schedule
  refine only_bind ?_ (fun d0 => only_bind
    (only_invoke _ _ (by simp [noGate, transferStart, transferStop]))
    (fun _ => only_bind (only_invoke _ _ (by simp [noGate, transferStart, transferStop]))
      (fun L => ?_)))
  · cases devices with
    | nil => exact only_raise _
    | cons d ds => exact only_pure _
  · split
    · exact only_undefinedBehaviour
    · exact only_bind (only_invoke _ _ (by simp [noGate, transferStart, transferStop]))
        (fun _ => only_invoke _ _ (by simp [noGate, transferStart, transferStop]))

theorem holds_shoot (devices : List Dev) :
    Holds devices (Closed devices) (Closed devices) (shoot devices) := by
  unfold shoot
  refine holds_bind (R := Closed devices) ?_ (fun _ => holds_bind (R := Closed devices) ?_
    (fun _ => holds_bind (R := Closed devices) ?_ (fun _ => ?_)))
  · exact holds_neutral (closed_atMostOne devices)
      (only_forEach _ _ (fun x _ => only_invoke _ _ (by simp [noGate, transferStart,
        transferStop])))
  · exact holds_neutral (closed_atMostOne devices) (only_noGate_schedule devices)
  · exact holds_forEach (closed_atMostOne devices) _ _ (fun x _ => holds_captureOne devices x)
  · exact holds_neutral (closed_atMostOne devices)
      (only_forEach _ _ (fun x _ => only_invoke _ _ (by simp [noGate, transferStart,
        transferStop])))


/-! ## Order of the transfers -/

theorem split_left {α : Type} (X Y pre post : List α) (ev : α)
    (h : X ++ Y = pre ++ ev :: post) (hX : ev ∉ X) :
    ∃ pre2, pre = X ++ pre2 ∧ Y = pre2 ++ ev :: post := by
  rcases List.append_eq_append_iff.1 h with ⟨a, h1, h2⟩ | ⟨c, h1, h2⟩
  · exact ⟨a, h1, h2⟩
  · cases c with
    | nil =>
      simp only [List.append_nil, List.nil_append] at h1 h2
      exact ⟨[], by simp [h1], by simp [h2]⟩
    | cons x xs =>
      simp only [List.cons_append, List.cons.injEq] at h2
      obtain ⟨rfl, -⟩ := h2
      exact absurd (by simp [h1]) hX

theorem split_right {α : Type} (X Y pre post : List α) (ev : α)
    (h : X ++ Y = pre ++ ev :: post) (hY : ev ∉ Y) :
    ∃ post2, X = pre ++ ev :: post2 := by
  rcases List.append_eq_append_iff.1 h with ⟨a, h1, h2⟩ | ⟨c, h1, h2⟩
  · exact absurd (by simp [h2]) hY
  · cases c with
    | nil =>
      simp only [List.nil_append] at h2
      exact absurd (by simp [← h2]) hY
    | cons x xs =>
      simp only [List.cons_append, List.cons.injEq] at h2
      obtain ⟨rfl, -⟩ := h2
      exact ⟨xs, h1⟩

theorem transferStarts_append (a b : List Event) :
    transferStarts (a ++ b) = transferStarts a ++ transferStarts b := by
  induction a with
  | nil => rfl
  | cons ev rest ih =>
    obtain ⟨c, o⟩ := ev
    cases c with
    | ExecuteNode m name =>
      cases m with
      | GetNodeMap d =>
        simp only [List.cons_append, transferStarts]
        split_ifs <;> simp [ih]
      | _ => simp [transferStarts, ih]
    | _ => simp [transferStarts, ih]

theorem transferStops_append (a b : List Event) :
    transferStops (a ++ b) = transferStops a ++ transferStops b := by
  induction a with
  | nil => rfl
  | cons ev rest ih =>
    rcases ev with ⟨c, (e | r)⟩
    · cases c <;> simp [transferStops, ih]
    · cases c with
      | ExecuteNode m name =>
        cases m with
        | GetNodeMap d =>
          simp only [List.cons_append, transferStops]
          split_ifs <;> simp [ih]
        | _ => simp [transferStops, ih]
      | _ => simp [transferStops, ih]

theorem no_transfers (evs : List Event) (h : ∀ ev ∈ evs, noGate ev.call) :
    transferStarts evs = [] ∧ transferStops evs = [] := by
  induction evs with
  | nil => exact ⟨rfl, rfl⟩
  | cons ev rest ih =>
    have h1 := h ev (List.mem_cons_self _ _)
    obtain ⟨i1, i2⟩ := ih (fun e he => h e (List.mem_cons_of_mem _ he))
    obtain ⟨c, o⟩ := ev
    cases c with
    | ExecuteNode m name =>
      cases m with
      | GetNodeMap d =>
        have h2 := (h1 d).1
        have h3 := (h1 d).2
        simp only [transferStart, transferStop, ne_eq, Call.ExecuteNode.injEq, true_and]
          at h2 h3
        cases o <;> simp [transferStarts, transferStops, h2, h3, i1, i2]
      | _ => cases o <;> simp [transferStarts, transferStops, i1, i2]
    | _ => cases o <;> simp [transferStarts, transferStops, i1, i2]

theorem only_noStart_afterStart (x : Dev) (serial : String) :
    Only noStart (do
      let pImage ← GetImage x 3000
      ExecuteNode (.GetNodeMap x) "TransferStop"
      let _ ← GetTimestamp pImage
      SaveImagePNG pImage (FILE_NAME ++ serial ++ ".png")
      SaveImageRAW pImage (FILE_NAME ++ serial ++ ".raw")
      RequeueBuffer x pImage) := by
  unfold SaveImagePNG SaveImageRAW ExecuteNode GetImage GetTimestamp GetPixelFormatName
    ImageFactory_Copy ImageParams ImageWriter SetPng SetRaw write ImageFactory_Destroy
    RequeueBuffer
  repeat (first
    | exact only_invoke _ _ (by simp [noStart, transferStart])
    | apply only_bind
    | intro _)

theorem captureOne_start (x : Dev) (env : Env) (n : Nat) (pre post : List Event) (ev : Event)
    (b : Dev) (h : (captureOne x env n).events = pre ++ ev :: post)
    (hc : ev.call = transferStart b) :
    b = x ∧ transferStarts pre = [] ∧ transferStops pre = [] := by
  have hrest := only_noStart_afterStart x
    (env.gcstring n (.GetNodeMap x) "DeviceSerialNumber") env (n + 1 + 1)
  unfold captureOne GetNodeValue_gcstring at h
  rw [events_invoke_bind] at h
  split at h
  · cases pre with
    | nil =>
      simp only [List.nil_append, List.cons.injEq] at h
      rw [← h.1] at hc
      simp [transferStart] at hc
    | cons p ps => simp at h
  · cases pre with
    | nil =>
      simp only [List.nil_append, List.cons.injEq] at h
      rw [← h.1] at hc
      simp [transferStart] at hc
    | cons p ps =>
      simp only [List.cons_append, List.cons.injEq] at h
      obtain ⟨rfl, h⟩ := h
      unfold ExecuteNode at h
      rw [events_invoke_bind] at h
      have key : ∀ (o : Outcome) (R : List Event), (∀ e ∈ R, noStart e.call) →
          (⟨.ExecuteNode (.GetNodeMap x) "TransferStart", o⟩ : Event) :: R = ps ++ ev :: post →
          b = x ∧ ps = [] := by
        intro o R hR hl
        cases ps with
        | nil =>
          simp only [List.nil_append, List.cons.injEq] at hl
          rw [← hl.1] at hc
          simp only [transferStart, Call.ExecuteNode.injEq, NodeMap.GetNodeMap.injEq,
            and_true] at hc
          exact ⟨hc.symm, rfl⟩
        | cons q qs =>
          simp only [List.cons_append, List.cons.injEq] at hl
          have hmem : ev ∈ R := by rw [hl.2]; simp
          exact absurd hc (hR ev hmem b)
      split at h
      · obtain ⟨rfl, rfl⟩ := key _ [] (by simp) h
        simp [transferStarts, transferStops]
      · obtain ⟨rfl, rfl⟩ := key _ _ (fun e he => hrest e he) h
        simp [transferStarts, transferStops]

theorem transfers_captureBlock (x : Dev) (s : Shot) :
    transferStarts (captureBlock x s) = [x] ∧ transferStops (captureBlock x s) = [x] := by
  simp [captureBlock, done, transferStart, transferStop, transferStarts, transferStops]

theorem order_forEach (devices : List Dev) :
    ∀ (env : Env) (n : Nat) (pre post : List Event) (ev : Event) (b : Dev),
      (forEach devices captureOne env n).events = pre ++ ev :: post →
      ev.call = transferStart b →
      ∃ k, devices[k]? = some b ∧ transferStarts pre = devices.take k ∧
        transferStops pre = devices.take k := by
  induction devices with
  | nil =>
    intro env n pre post ev b h
    simp [forEach, pure_run, Res.events] at h
  | cons x xs ih =>
    intro env n pre post ev b hev hc
    rw [forEach, events_bind] at hev
    rcases List.append_eq_append_iff.1 hev with ⟨pre2, h1, h2⟩ | ⟨c, h1, h2⟩
    · cases hr : captureOne x env n with
      | ok u e1 =>
        rw [hr] at h2
        simp only at h2
        rw [hr] at h1
        simp only [Res.events] at h1
        obtain ⟨s, rfl⟩ := captureOne_ok x env n e1 hr
        obtain ⟨k, hk, hs, ht⟩ := ih env _ pre2 post ev b h2 hc
        obtain ⟨b1, b2⟩ := transfers_captureBlock x s
        refine ⟨k + 1, by simpa using hk, ?_, ?_⟩
        · rw [h1, transferStarts_append, b1, hs]; rfl
        · rw [h1, transferStops_append, b2, ht]; rfl
      | throw e e1 => rw [hr] at h2; simp at h2
      | outOfFuel e1 => rw [hr] at h2; simp at h2
      | undefined e1 => rw [hr] at h2; simp at h2
    · cases c with
      | nil =>
        simp only [List.append_nil, List.nil_append] at h1 h2
        cases hr : captureOne x env n with
        | ok u e1 =>
          rw [hr] at h2
          simp only at h2
          rw [hr] at h1
          simp only [Res.events] at h1
          obtain ⟨s, rfl⟩ := captureOne_ok x env n e1 hr
          obtain ⟨k, hk, hs, ht⟩ := ih env _ [] post ev b h2.symm hc
          obtain ⟨b1, b2⟩ := transfers_captureBlock x s
          have hs0 : xs.take k = [] := by rw [← hs]; rfl
          refine ⟨k + 1, by simpa using hk, ?_, ?_⟩
          · rw [← h1, b1]; simp [hs0]
          · rw [← h1, b2]; simp [hs0]
        | throw e e1 => rw [hr] at h2; simp at h2
        | outOfFuel e1 => rw [hr] at h2; simp at h2
        | undefined e1 => rw [hr] at h2; simp at h2
      | cons y ys =>
        simp only [List.cons_append, List.cons.injEq] at h2
        obtain ⟨rfl, -⟩ := h2
        obtain ⟨rfl, hs, ht⟩ := captureOne_start x env n pre ys ev b h1 hc
        exact ⟨0, by simp, by simp [hs], by simp [ht]⟩

theorem order_shoot (devices : List Dev) (env : Env) (n : Nat) (pre post : List Event)
    (ev : Event) (b : Dev) (hev : (shoot devices env n).events = pre ++ ev :: post)
    (hc : ev.call = transferStart b) :
    ∃ k, devices[k]? = some b ∧ transferStarts pre = devices.take k ∧
      transferStops pre = devices.take k := by
  have hg : ¬ noGate ev.call := by
    intro h
    exact (h b).1 hc
  have hA : Only noGate (forEach devices StartStream) :=
    only_forEach _ _ (fun x _ => only_invoke _ _ (by simp [noGate, transferStart,
      transferStop]))
  have hD : Only noGate (forEach devices StopStream) :=
    only_forEach _ _ (fun x _ => only_invoke _ _ (by simp [noGate, transferStart,
      transferStop]))
  unfold shoot at hev
  rw [events_bind] at hev
  obtain ⟨pre2, rfl, h2⟩ := split_left _ _ _ _ _ hev (fun hm => hg (hA env n ev hm))
  obtain ⟨a1, a2⟩ := no_transfers _ (hA env n)
  cases h1 : forEach devices StartStream env n with
  | ok u e1 =>
    rw [h1] at h2 a1 a2
    simp only [Res.events] at a1 a2 ⊢
    simp only at h2
    rw [events_bind] at h2
    obtain ⟨pre3, rfl, h3⟩ := split_left _ _ _ _ _ h2
      (fun hm => hg (only_noGate_schedule devices env _ ev hm))
    obtain ⟨s1, s2⟩ := no_transfers _ (only_noGate_schedule devices env (n + e1.length))
    cases h4 : schedule devices env (n + e1.length) with
    | ok u2 e2 =>
      rw [h4] at h3 s1 s2
      simp only [Res.events] at s1 s2 ⊢
      simp only at h3
      have fin : ∀ post2, (forEach devices captureOne env (n + e1.length + e2.length)).events =
            pre3 ++ ev :: post2 →
          ∃ k, devices[k]? = some b ∧ transferStarts (e1 ++ (e2 ++ pre3)) = devices.take k ∧
            transferStops (e1 ++ (e2 ++ pre3)) = devices.take k := by
        intro post2 h5
        obtain ⟨k, hk, hs, ht⟩ := order_forEach devices env _ pre3 post2 ev b h5 hc
        refine ⟨k, hk, ?_, ?_⟩
        · rw [transferStarts_append, transferStarts_append, a1, s1, hs]; rfl
        · rw [transferStops_append, transferStops_append, a2, s2, ht]; rfl
      rw [events_bind] at h3
      cases h6 : forEach devices captureOne env (n + e1.length + e2.length) with
      | ok u3 e3 =>
        rw [h6] at h3
        simp only at h3
        obtain ⟨post2, h5⟩ := split_right _ _ _ _ _ h3 (fun hm => hg (hD env _ ev hm))
        rw [← h6] at h5
        exact fin post2 h5
      | throw e e3 =>
        rw [h6, List.append_nil, ← h6] at h3
        exact fin post h3
      | outOfFuel e3 =>
        rw [h6, List.append_nil, ← h6] at h3
        exact fin post h3
      | undefined e3 =>
        rw [h6, List.append_nil, ← h6] at h3
        exact fin post h3
    | throw e e2 => rw [h4] at h3; simp at h3
    | outOfFuel e2 => rw [h4] at h3; simp at h3
    | undefined e2 => rw [h4] at h3; simp at h3
  | throw e e1 => rw [h1] at h2; simp at h2
  | outOfFuel e1 => rw [h1] at h2; simp at h2
  | undefined e1 => rw [h1] at h2; simp at h2

/-- C4. In every run of `shoot`, when a `TransferStart` is issued for a
device, it is the device at some position `k` of the list, and the devices
started before it and the devices whose `TransferStop` has returned before it
are both exactly the `k` devices at the earlier positions: the
`TransferStart` of device `i + 1` comes only after the `TransferStop` of
device `i` has returned.  `sync_and_prep`, when it returns, leaves the gate
of every device of the list closed, from any earlier state of the gates; and
from there, at every point of every run of `shoot` at most one device of the
list has its transfer gate open. -/
theorem transfer_one_at_a_time (devices : List Dev) (fuel : Nat) (env : Env) (n : Nat)
    (evs1 : List Event) (hprep : sync_and_prep devices fuel env n = .ok () evs1)
    (g0 : Dev → Bool) (env2 : Env) (n2 : Nat) :
    (∀ pre ev post b, (shoot devices env2 n2).events = pre ++ ev :: post →
      ev.call = transferStart b →
      ∃ k, devices[k]? = some b ∧ transferStarts pre = devices.take k ∧
        transferStops pre = devices.take k) ∧
    Closed devices (gates g0 evs1) ∧
    ∀ p, p <+: (shoot devices env2 n2).events →
      AtMostOneOpen devices (gates (gates g0 evs1) p) := by
  have hclosed := sync_and_prep_closes devices fuel env n evs1 g0 hprep
  refine ⟨?_, hclosed, (holds_shoot devices env2 n2 _ hclosed).1⟩
  intro pre ev post b hev hc
  exact order_shoot devices env2 n2 pre post ev b hev hc

theorem transfer_one_at_a_time_witness :
    sync_and_prep [0, 1] 1 envSync 0 = .ok () prepLog ∧
    ((∀ pre ev post b, (shoot [0, 1] envSync prepLog.length).events = pre ++ ev :: post →
      ev.call = transferStart b →
      ∃ k, [0, 1][k]? = some b ∧ transferStarts pre = [0, 1].take k ∧
        transferStops pre = [0, 1].take k) ∧
    Closed [0, 1] (gates (fun _ => true) prepLog) ∧
    ∀ p, p <+: (shoot [0, 1] envSync prepLog.length).events →
      AtMostOneOpen [0, 1] (gates (gates (fun _ => true) prepLog) p)) :=
  ⟨by decide!, transfer_one_at_a_time [0, 1] 1 envSync 0 prepLog (by decide!)
    (fun _ => true) envSync prepLog.length⟩

end Lightstage
